import Mathlib

/-!
# Arcana-Sim: a shallow embedding of the core game engine

This development embeds the core of the Arcana-Sim card-battle engine
(`discord_engine.py`, with the variants of `game_engine.py` where they differ,
and the AI turn driver of `discord_ai_controller.py`) and proves properties of
the embedded operations.

Modelling conventions:
* The two players (the source keys them by two Discord user ids) are the
  two-element type `Side`; `player1_id` is `Side.p1`, who starts the match.
* Python integers are `Int`.  Python lists are `List`, with `list.pop()`
  modelled by `List.getLast?`/`List.dropLast` and `append` by `++ [·]`.
* The free-form `effects` dictionary of a card carries exactly the keys the
  resolver reads (`direct_attack`, `reduce_defense`, `prevent_defense_reduction`,
  `aoe_damage`, `target`, `heal_wizard`, `heal_spirit`); `dict.get(k)` truthiness
  for an integer-valued key is `≠ 0` on the stored value, absence is `none`.
* Each mutating method of `ArcanaGame` becomes a pure function
  `GameState → … → Bool × String × GameState` returning the (success, message)
  pair of the source together with the post state.  Paths of the source that
  deduct aether and later refund it before returning a failure leave the state
  numerically unchanged, so they return the input state.
* `random.shuffle` is nondeterministic; phase advancement (whose upkeep may
  reshuffle the discard pile) is therefore a relation `NextPhaseRel`, with the
  chosen shuffled deck constrained to be a permutation of the discard pile.
-/

namespace Arcana

/-- The four phases of the turn cycle (`Phase` in the source; the source spells
the first one `ATTAINMENT`). -/
inductive Phase where
  | ATTAINMENT
  | MEMORIZATION
  | INVOCATION
  | RESPITE
deriving DecidableEq, Repr

/-- Successor in the phase list `[ATTAINMENT, MEMORIZATION, INVOCATION, RESPITE]`
(`phases[current_index + 1]`); `next_phase` only takes this branch when the
current phase is not the last one, so the value at `RESPITE` is irrelevant. -/
def Phase.succ : Phase → Phase
  | .ATTAINMENT => .MEMORIZATION
  | .MEMORIZATION => .INVOCATION
  | .INVOCATION => .RESPITE
  | .RESPITE => .ATTAINMENT

/-- The two sides of a match.  The source keys `ArcanaGame.players` by two user
ids; `p1` is `player1_id` (the challenger, who starts). -/
inductive Side where
  | p1
  | p2
deriving DecidableEq, Repr

/-- `ArcanaGame.get_opponent_id`. -/
def Side.other : Side → Side
  | .p1 => .p2
  | .p2 => .p1

@[simp] theorem Side.other_other (s : Side) : s.other.other = s := by cases s <;> rfl

@[simp] theorem Side.other_ne (s : Side) : s.other ≠ s := by cases s <;> simp [Side.other]

@[simp] theorem Side.ne_other (s : Side) : s ≠ s.other := by cases s <;> simp [Side.other]

/-- The effect keywords dictionary attached to a card.  A missing key is
`none`/`false`; `dict.get(key)` truthiness for the integer-valued keys is
"present and nonzero". -/
structure Effects where
  direct_attack : Bool := false
  reduce_defense : Option Int := none
  prevent_defense_reduction : Bool := false
  aoe_damage : Bool := false
  target : Option String := none
  heal_wizard : Option Int := none
  heal_spirit : Option Int := none
deriving DecidableEq, Repr, Inhabited

/-- Truthiness of `effects.get("heal_wizard")`. -/
def Effects.healWizardTruthy (e : Effects) : Bool :=
  match e.heal_wizard with
  | some n => n != 0
  | none => false

/-- The `Card` class of `discord_engine.py`: a card instance with its mutable
runtime state (`current_hp`, `defense`). -/
structure Card where
  name : String
  ctype : String
  activation_cost : Int
  power : Int := 0
  defense : Int := 0
  max_hp : Int := 0
  current_hp : Int := 0
  effect : String := ""
  scaling : Int := 0
  element : String := ""
  effects : Effects := {}
deriving DecidableEq, Repr, Inhabited

/-- The `PlayerState` class: one side's resources, zones and per-turn flags. -/
structure PlayerState where
  wizard_hp : Int := 20
  aether : Int := 0
  max_aether : Int := 16
  hand : List Card := []
  deck : List Card := []
  discard : List Card := []
  spirit_slots : List (Option Card) := [none, none, none]
  spell_slots : List (List Card) := [[], [], [], []]
  wizard_ability_used : Bool := false
  placed_card_this_turn : Bool := false
deriving DecidableEq, Repr

/-- The `ArcanaGame` match state (minus the card manager, which the core only
uses while materializing decks). -/
structure GameState where
  players1 : PlayerState
  players2 : PlayerState
  current_player : Side
  current_phase : Phase
  turn_count : Int
  game_over : Bool
  winner : Option Side
deriving DecidableEq, Repr

/-- `self.players[player_id]`. -/
def GameState.player (g : GameState) : Side → PlayerState
  | .p1 => g.players1
  | .p2 => g.players2

/-- Writing back the (in the source, aliased and mutated in place) player object. -/
def GameState.setPlayer (g : GameState) : Side → PlayerState → GameState
  | .p1, p => { g with players1 := p }
  | .p2, p => { g with players2 := p }

@[simp] theorem GameState.player_setPlayer (g : GameState) (sid : Side) (p : PlayerState)
    (s : Side) : (g.setPlayer sid p).player s = if s = sid then p else g.player s := by
  cases sid <;> cases s <;> simp [GameState.player, GameState.setPlayer]

@[simp] theorem GameState.setPlayer_phase (g : GameState) (sid : Side) (p : PlayerState) :
    (g.setPlayer sid p).current_phase = g.current_phase := by
  cases sid <;> rfl

@[simp] theorem GameState.setPlayer_current (g : GameState) (sid : Side) (p : PlayerState) :
    (g.setPlayer sid p).current_player = g.current_player := by
  cases sid <;> rfl

@[simp] theorem GameState.setPlayer_over (g : GameState) (sid : Side) (p : PlayerState) :
    (g.setPlayer sid p).game_over = g.game_over := by
  cases sid <;> rfl

@[simp] theorem GameState.setPlayer_winner (g : GameState) (sid : Side) (p : PlayerState) :
    (g.setPlayer sid p).winner = g.winner := by
  cases sid <;> rfl

@[simp] theorem GameState.setPlayer_turn (g : GameState) (sid : Side) (p : PlayerState) :
    (g.setPlayer sid p).turn_count = g.turn_count := by
  cases sid <;> rfl

/-- The result type of every resolver operation: `(success, message)` of the
source, paired with the post state. -/
abbrev OpResult := Bool × String × GameState

/-- The linear search "find the first card in hand with this type and name,
remember its index, then `hand.pop(index)`": returns the found card and the
hand with that one occurrence removed. -/
def extractFirst (p : Card → Bool) : List Card → Option (Card × List Card)
  | [] => none
  | c :: cs =>
    if p c then some (c, cs)
    else (extractFirst p cs).map fun r => (r.1, c :: r.2)

/-- `ArcanaGame.summon_spirit` (discord engine). -/
def summon_spirit (g : GameState) (pid : Side) (spirit_name : String) (slot : Int) : OpResult :=
  if g.current_phase ≠ Phase.MEMORIZATION then
    (false, "Can only summon during memorization phase", g)
  else
    let player := g.player pid
    if player.placed_card_this_turn then (false, "Already placed a card this turn", g)
    else
      match extractFirst (fun c => c.ctype == "spirit" && c.name == spirit_name) player.hand with
      | none => (false, "No " ++ spirit_name ++ " in hand", g)
      | some (sc, hand') =>
        if ¬(0 ≤ slot ∧ slot < (player.spirit_slots.length : Int)) then
          (false, "Invalid slot index", g)
        else if (player.spirit_slots.getD slot.toNat none).isSome then
          (false, "Spirit slot is occupied", g)
        else
          (true, "Summoned " ++ spirit_name ++ " to slot " ++ toString (slot + 1),
            g.setPlayer pid { player with
              hand := hand'
              spirit_slots := player.spirit_slots.set slot.toNat (some sc)
              placed_card_this_turn := true })

/-- `ArcanaGame.prepare_spell` (discord engine). -/
def prepare_spell (g : GameState) (pid : Side) (spell_name : String) (slot : Int) : OpResult :=
  if g.current_phase ≠ Phase.MEMORIZATION then
    (false, "Can only prepare spells during memorization phase", g)
  else
    let player := g.player pid
    if player.placed_card_this_turn then (false, "Already placed a card this turn", g)
    else
      match extractFirst (fun c => c.ctype == "spell" && c.name == spell_name) player.hand with
      | none => (false, "No " ++ spell_name ++ " in hand", g)
      | some (sc, hand') =>
        if ¬(0 ≤ slot ∧ slot < (player.spell_slots.length : Int)) then
          (false, "Invalid slot index", g)
        else
          let stack := player.spell_slots.getD slot.toNat []
          if 3 ≤ stack.length then (false, "Spell slot is full (max 3)", g)
          else if stack ≠ [] ∧ stack.headI.name ≠ spell_name then
            (false, "Can only stack identical spells", g)
          else
            (true, "Prepared " ++ spell_name ++ " in slot " ++ toString (slot + 1),
              g.setPlayer pid { player with
                hand := hand'
                spell_slots := player.spell_slots.set slot.toNat (stack ++ [sc])
                placed_card_this_turn := true })

/-- `ArcanaGame.replace_spell` (discord engine): discard the whole stack in the
slot and start a fresh one-card stack. -/
def replace_spell (g : GameState) (pid : Side) (spell_name : String) (slot : Int) : OpResult :=
  if g.current_phase ≠ Phase.MEMORIZATION then
    (false, "Can only replace spells during memorization phase", g)
  else
    let player := g.player pid
    if player.placed_card_this_turn then (false, "Already placed a card this turn", g)
    else
      match extractFirst (fun c => c.ctype == "spell" && c.name == spell_name) player.hand with
      | none => (false, "No " ++ spell_name ++ " in hand", g)
      | some (sc, hand') =>
        if ¬(0 ≤ slot ∧ slot < (player.spell_slots.length : Int)) then
          (false, "Invalid spell slot index", g)
        else
          let old_stack := player.spell_slots.getD slot.toNat []
          (true, "Replaced slot " ++ toString (slot + 1) ++ " (discarded "
              ++ toString old_stack.length ++ ") with " ++ spell_name,
            g.setPlayer pid { player with
              hand := hand'
              discard := player.discard ++ old_stack
              spell_slots := player.spell_slots.set slot.toNat [sc]
              placed_card_this_turn := true })

/-- `ArcanaGame.use_wizard_ability` (discord engine): stubbed to a one-aether
grant; counts as the one placement of the turn. -/
def use_wizard_ability (g : GameState) (pid : Side) : OpResult :=
  if g.current_phase ≠ Phase.MEMORIZATION then
    (false, "Can only use ability during memorization phase", g)
  else
    let player := g.player pid
    if player.placed_card_this_turn then (false, "Already placed a card this turn", g)
    else if player.wizard_ability_used then (false, "Wizard ability already used this turn", g)
    else
      (true, "Wizard ability used! (Gained 1 Aether)",
        g.setPlayer pid { player with
          aether := min (player.aether + 1) player.max_aether
          wizard_ability_used := true
          placed_card_this_turn := true })

/-- One opposing spirit slot after AoE damage: an occupied slot whose spirit
survives keeps the damaged spirit, a slot whose spirit drops to `hp ≤ 0` is
cleared. -/
def aoeSurvivor (damage : Int) : Option Card → Option Card
  | none => none
  | some sp =>
    let actual := max 0 (damage - sp.defense)
    let hp' := sp.current_hp - actual
    if hp' ≤ 0 then none else some { sp with current_hp := hp' }

/-- The spirit (with its reduced hp) that AoE damage removes from a slot, if
the slot's occupant dies; these are appended to the owner's discard in slot
order. -/
def aoeCasualty (damage : Int) : Option Card → Option Card
  | none => none
  | some sp =>
    let actual := max 0 (damage - sp.defense)
    let hp' := sp.current_hp - actual
    if hp' ≤ 0 then some { sp with current_hp := hp' } else none

/-- `for _ in range(n): if stack: discard.append(stack.pop())` — pop up to `n`
cards off the end of the stack onto the discard pile. -/
def popMany : Nat → List Card → List Card → List Card × List Card
  | 0, st, dc => (st, dc)
  | n + 1, st, dc =>
    match st.getLast? with
    | none => popMany n st dc
    | some c => popMany n st.dropLast (dc ++ [c])

/-- `ArcanaGame.activate_spell` (discord engine).  The requested copy count is
clamped to the stack size only when it exceeds it; the source's inner
`"No copies in stack."` return is unreachable because the stack was just
checked to be non-empty.  The unrecognized-effect path deducts the cost and
refunds it, leaving the state unchanged. -/
def activate_spell (g : GameState) (pid : Side) (slot : Int) (copies : Int) : OpResult :=
  if g.current_phase ≠ Phase.INVOCATION then
    (false, "Can only activate spells during invocation phase", g)
  else
    let player := g.player pid
    let opponent := g.player pid.other
    if ¬(0 ≤ slot ∧ slot < (player.spell_slots.length : Int)) then
      (false, "Invalid slot index", g)
    else
      match player.spell_slots.getD slot.toNat [] with
      | [] => (false, "No spells in that slot", g)
      | spell :: rest =>
        let stack := spell :: rest
        let cu : Int := if (stack.length : Int) < copies then (stack.length : Int) else copies
        let total_cost := spell.activation_cost * cu
        if player.aether < total_cost then (false, "Not enough Aether", g)
        else if spell.effects.aoe_damage ∧ spell.effects.target = some "enemy_spirits" then
          let damage := spell.scaling * cu
          let opponent' := { opponent with
            spirit_slots := opponent.spirit_slots.map (aoeSurvivor damage)
            discard := opponent.discard ++ opponent.spirit_slots.filterMap (aoeCasualty damage) }
          let popped := popMany cu.toNat stack player.discard
          let player' := { player with
            aether := player.aether - total_cost
            spell_slots := player.spell_slots.set slot.toNat popped.1
            discard := popped.2 }
          let hits := opponent.spirit_slots.countP Option.isSome
          ((true : Bool),
            (if hits = 0 then spell.name ++ " cast, but no enemy spirits."
             else "Activated " ++ spell.name ++ " x" ++ toString cu),
            (g.setPlayer pid player').setPlayer pid.other opponent')
        else if spell.effects.healWizardTruthy then
          let wizard_heal := spell.effects.heal_wizard.getD 0 * cu
          let popped := popMany cu.toNat stack player.discard
          let player' := { player with
            aether := player.aether - total_cost
            wizard_hp := min 20 (player.wizard_hp + wizard_heal)
            spell_slots := player.spell_slots.set slot.toNat popped.1
            discard := popped.2 }
          ((true : Bool), "Healed " ++ toString wizard_heal ++ " HP to your wizard",
            g.setPlayer pid player')
        else
          (false, "Could not activate " ++ spell.name ++ " (no valid targets or effect?)", g)

/-- `ArcanaGame.attack_with_spirit` (discord engine).  Failure paths after the
cost deduction refund it, so they return the input state. -/
def attack_with_spirit (g : GameState) (pid : Side) (spirit_slot : Int)
    (target_type : String) (target_index : Int) : OpResult :=
  if g.current_phase ≠ Phase.INVOCATION then
    (false, "Can only attack during invocation phase", g)
  else
    let player := g.player pid
    let opponent := g.player pid.other
    if ¬(0 ≤ spirit_slot ∧ spirit_slot < (player.spirit_slots.length : Int)) then
      (false, "Invalid attacker slot", g)
    else
      match player.spirit_slots.getD spirit_slot.toNat none with
      | none => (false, "No spirit in that slot", g)
      | some spirit =>
        if player.aether < spirit.activation_cost then
          (false, "Not enough Aether for " ++ spirit.name, g)
        else if target_type == "wizard" then
          let has_guard := opponent.spirit_slots.any Option.isSome
          if has_guard && !spirit.effects.direct_attack then
            (false, "Cannot attack wizard (Guard Rule)", g)
          else
            let damage := max 0 spirit.power
            let hp' := opponent.wizard_hp - damage
            let player' := { player with aether := player.aether - spirit.activation_cost }
            let msg := spirit.name ++ " attacked wizard for " ++ toString damage ++ " damage"
            if hp' ≤ 0 then
              ((true : Bool), msg,
                ({ g with game_over := true, winner := some pid }.setPlayer pid player').setPlayer
                  pid.other { opponent with wizard_hp := 0 })
            else
              ((true : Bool), msg,
                (g.setPlayer pid player').setPlayer pid.other { opponent with wizard_hp := hp' })
        else if target_type == "spirit" then
          if ¬(0 ≤ target_index ∧ target_index < (opponent.spirit_slots.length : Int)) then
            (false, "Invalid target slot", g)
          else
            match opponent.spirit_slots.getD target_index.toNat none with
            | none => (false, "No spirit in target slot", g)
            | some target_spirit =>
              let damage := max 0 (spirit.power - target_spirit.defense)
              let hp' := target_spirit.current_hp - damage
              let defense' :=
                match spirit.effects.reduce_defense with
                | some r =>
                  if r != 0 && !target_spirit.effects.prevent_defense_reduction then
                    max 0 (target_spirit.defense - r)
                  else target_spirit.defense
                | none => target_spirit.defense
              let target' := { target_spirit with current_hp := hp', defense := defense' }
              let player' := { player with aether := player.aether - spirit.activation_cost }
              let opponent' :=
                if hp' ≤ 0 then
                  { opponent with
                    spirit_slots := opponent.spirit_slots.set target_index.toNat none
                    discard := opponent.discard ++ [target'] }
                else
                  { opponent with
                    spirit_slots := opponent.spirit_slots.set target_index.toNat (some target') }
              ((true : Bool), spirit.name ++ " attacked " ++ target_spirit.name,
                (g.setPlayer pid player').setPlayer pid.other opponent')
        else
          (false, "Invalid target type", g)

/-- `player.aether = min(player.aether + 2, player.max_aether)` plus the
turn-flag resets at the end of `handle_attunement_phase`. -/
def gainAndReset (p : PlayerState) : PlayerState :=
  { p with
    aether := min (p.aether + 2) p.max_aether
    wizard_ability_used := false
    placed_card_this_turn := false }

/-- The draw step of `handle_attunement_phase`: draw the top (last) card of the
deck; if the deck is empty, move the discard pile into the deck, shuffle it (a
nondeterministic permutation) and draw from it; if both are empty, do nothing. -/
inductive DrawRel : PlayerState → PlayerState → Prop
  | fromDeck (p : PlayerState) (c : Card) (d : List Card) (h : p.deck = d ++ [c]) :
      DrawRel p { p with deck := d, hand := p.hand ++ [c] }
  | reshuffle (p : PlayerState) (c : Card) (d : List Card)
      (hdeck : p.deck = []) (hperm : (d ++ [c]).Perm p.discard) :
      DrawRel p { p with deck := d, discard := [], hand := p.hand ++ [c] }
  | bothEmpty (p : PlayerState) (hdeck : p.deck = []) (hdisc : p.discard = []) :
      DrawRel p p

/-- `ArcanaGame.handle_attunement_phase` for one player: draw, gain aether,
reset the flags. -/
def UpkeepRel (p p' : PlayerState) : Prop :=
  ∃ q, DrawRel p q ∧ p' = gainAndReset q

/-- `ArcanaGame.next_phase`: a no-op when the game is over; from `RESPITE`,
switch sides, return to `ATTAINMENT`, count the turn when play returns to
player 1, and run upkeep for the new current side; otherwise step to the next
phase in the cycle. -/
inductive NextPhaseRel : GameState → GameState → Prop
  | over (g : GameState) (h : g.game_over = true) : NextPhaseRel g g
  | advance (g : GameState) (h : g.game_over = false) (hp : g.current_phase ≠ Phase.RESPITE) :
      NextPhaseRel g { g with current_phase := g.current_phase.succ }
  | wrap (g : GameState) (q : PlayerState)
      (h : g.game_over = false) (hp : g.current_phase = Phase.RESPITE)
      (hup : UpkeepRel (g.player g.current_player.other) q) :
      NextPhaseRel g
        ({ g with
            current_player := g.current_player.other
            current_phase := Phase.ATTAINMENT
            turn_count :=
              g.turn_count + (if g.current_player.other = Side.p1 then 1 else 0)
          }.setPlayer g.current_player.other q)

/-- One call of the action API, with the acting side and the raw arguments. -/
inductive Act where
  | summon (pid : Side) (name : String) (slot : Int)
  | prepare (pid : Side) (name : String) (slot : Int)
  | replace (pid : Side) (name : String) (slot : Int)
  | ability (pid : Side)
  | activate (pid : Side) (slot : Int) (copies : Int)
  | attack (pid : Side) (slot : Int) (ttype : String) (tidx : Int)
deriving DecidableEq, Repr

/-- Dispatch an action to the corresponding resolver operation. -/
def applyAct : Act → GameState → OpResult
  | .summon pid n sl, g => summon_spirit g pid n sl
  | .prepare pid n sl, g => prepare_spell g pid n sl
  | .replace pid n sl, g => replace_spell g pid n sl
  | .ability pid, g => use_wizard_ability g pid
  | .activate pid sl c, g => activate_spell g pid sl c
  | .attack pid sl tt ti, g => attack_with_spirit g pid sl tt ti

/-- The post state of an action call. -/
def actState (a : Act) (g : GameState) : GameState := (applyAct a g).2.2

/-- One transition of the match state as the external callers can produce it:
an arbitrary action call, or an explicit phase advance. -/
inductive Step : GameState → GameState → Prop
  | act (a : Act) (g : GameState) : Step g (actState a g)
  | phase {g g' : GameState} (h : NextPhaseRel g g') : Step g g'

/-- A fresh `PlayerState` (the `PlayerState.__init__` defaults). -/
def freshPlayer : PlayerState := {}

/-- `for _ in range(draw_count): if player.deck: player.hand.append(player.deck.pop())`. -/
def drawLoop : Nat → PlayerState → PlayerState
  | 0, p => p
  | n + 1, p =>
    match p.deck.getLast? with
    | none => drawLoop n p
    | some c => drawLoop n { p with deck := p.deck.dropLast, hand := p.hand ++ [c] }

/-- One side's state after `initialize_decks`: an empty deck is left alone
(with a warning), otherwise the already-shuffled deck is dealt a starting hand
of `min 7 (deck size)` cards. -/
def initPlayer (shuffled : List Card) : PlayerState :=
  if shuffled.isEmpty then freshPlayer
  else drawLoop (min 7 shuffled.length) { freshPlayer with deck := shuffled }

/-- Match construction from the two materialized deck lists (the file loading
that produces the lists is outside the core): player 1 starts in `ATTAINMENT`
on turn 1, each deck is shuffled and a starting hand drawn. -/
def InitRel (deck1 deck2 : List Card) (g : GameState) : Prop :=
  ∃ d1 d2 : List Card, d1.Perm deck1 ∧ d2.Perm deck2 ∧
    g = { players1 := initPlayer d1
          players2 := initPlayer d2
          current_player := Side.p1
          current_phase := Phase.ATTAINMENT
          turn_count := 1
          game_over := false
          winner := none }

/-- Python list indexing for a list of length `n`: `0 ≤ i < n` and the negative
wrap-around `-n ≤ i < 0` resolve to positions, anything else raises
`IndexError`. -/
def pyIndex (n : Nat) (i : Int) : Option Nat :=
  if 0 ≤ i ∧ i < (n : Int) then some i.toNat
  else if -(n : Int) ≤ i ∧ i < 0 then some (i + n).toNat
  else none

/-- `ArcanaGame.summon_spirit` of `game_engine.py`: unlike the discord-engine
version it never validates `slot_index`, so the slot access
`player.spirit_slots[slot_index]` can raise `IndexError`; a raised exception is
modelled as `none`. -/
def ge_summon_spirit (g : GameState) (pid : Side) (spirit_name : String) (slot : Int) :
    Option OpResult :=
  if g.current_phase ≠ Phase.MEMORIZATION then
    some (false, "Can only summon during memorization phase", g)
  else
    let player := g.player pid
    if player.placed_card_this_turn then some (false, "Already placed a card this turn", g)
    else
      match extractFirst (fun c => c.ctype == "spirit" && c.name == spirit_name) player.hand with
      | none => some (false, "No " ++ spirit_name ++ " in hand", g)
      | some (sc, hand') =>
        match pyIndex player.spirit_slots.length slot with
        | none => none
        | some j =>
          if (player.spirit_slots.getD j none).isSome then
            some (false, "Spirit slot is occupied", g)
          else
            some (true, "Summoned " ++ spirit_name ++ " to slot " ++ toString (slot + 1),
              g.setPlayer pid { player with
                hand := hand'
                spirit_slots := player.spirit_slots.set j (some sc)
                placed_card_this_turn := true })


/-! ## Required phases and wrong-phase reasoning (claims C2, C3) -/

/-- The phase each operation demands in its first guard. -/
def Act.requiredPhase : Act → Phase
  | .summon _ _ _ => .MEMORIZATION
  | .prepare _ _ _ => .MEMORIZATION
  | .replace _ _ _ => .MEMORIZATION
  | .ability _ => .MEMORIZATION
  | .activate _ _ _ => .INVOCATION
  | .attack _ _ _ _ => .INVOCATION

/-- C2 (amended): every Action Resolver operation returns a failure and leaves
the state unchanged whenever `currentPhase` differs from the operation's
required phase; the phase guard is the only global check the operations make. -/
theorem c2_wrong_phase_rejected (a : Act) (g : GameState)
    (h : g.current_phase ≠ a.requiredPhase) :
    (applyAct a g).1 = false ∧ (applyAct a g).2.2 = g := by
  cases a <;>
    simp only [Act.requiredPhase] at h <;>
    simp [applyAct, summon_spirit, prepare_spell, replace_spell, use_wizard_ability,
      activate_spell, attack_with_spirit, h]

/-- A sample card used by the concrete scenarios below. -/
def wolf : Card :=
  { name := "Wolf", ctype := "spirit", activation_cost := 1, power := 2, defense := 1,
    max_hp := 3, current_hp := 3 }

/-- A finished game (p2 already won) in which it is p2's turn, sitting in
`MEMORIZATION`, with a spirit in p1's hand. -/
def gOverWrongSide : GameState :=
  { players1 := { freshPlayer with hand := [wolf] }
    players2 := freshPlayer
    current_player := Side.p2
    current_phase := Phase.MEMORIZATION
    turn_count := 3
    game_over := true
    winner := some Side.p2 }

/-- C2, counterexample: with `gameOver = true` and the acting side (p1) not the
current side (p2), `summon_spirit` nevertheless succeeds and changes the state,
so the operations do not reject on `gameOver` or on the wrong side. -/
theorem c2_counterexample :
    gOverWrongSide.game_over = true ∧ gOverWrongSide.current_player ≠ Side.p1 ∧
    (applyAct (Act.summon Side.p1 "Wolf" 0) gOverWrongSide).1 = true ∧
    (applyAct (Act.summon Side.p1 "Wolf" 0) gOverWrongSide).2.2 ≠ gOverWrongSide := by
  decide

/-- Closed instance of `c2_wrong_phase_rejected` at a concrete state and
argument: activating a spell while the phase is `MEMORIZATION` fails and the
state is unchanged. -/
theorem c2_wrong_phase_rejected_witness :
    gOverWrongSide.current_phase ≠ (Act.activate Side.p1 0 1).requiredPhase ∧
    ((applyAct (Act.activate Side.p1 0 1) gOverWrongSide).1 = false ∧
      (applyAct (Act.activate Side.p1 0 1) gOverWrongSide).2.2 = gOverWrongSide) :=
  ⟨by decide, c2_wrong_phase_rejected (Act.activate Side.p1 0 1) gOverWrongSide (by decide)⟩

/-- A live `MEMORIZATION` state for p1 with a spirit in hand and all spirit
slots free. -/
def gMem : GameState :=
  { players1 := { freshPlayer with hand := [wolf] }
    players2 := freshPlayer
    current_player := Side.p1
    current_phase := Phase.MEMORIZATION
    turn_count := 1
    game_over := false
    winner := none }

/-- C3: `game_engine.py`'s `summon_spirit` receives the out-of-range slot index
3 (slots are 0..2) with the named spirit in hand, and the unguarded
`player.spirit_slots[slot_index]` access raises `IndexError` (modelled `none`)
instead of returning a `(success, message)` pair; the discord-engine version of
the same operation returns a plain failure on the same input and leaves the
state unchanged. -/
theorem c3_ge_summon_spirit_raises :
    ge_summon_spirit gMem Side.p1 "Wolf" 3 = none ∧
    (summon_spirit gMem Side.p1 "Wolf" 3).1 = false ∧
    (summon_spirit gMem Side.p1 "Wolf" 3).2.2 = gMem := by
  decide

/-! ## C7: the Guard Rule for wizard-targeted attacks -/

/-- C7: under the attack preconditions (Invocation phase, occupied attacker
slot, affordable cost), a wizard-targeted attack (a) fails with the state
unchanged (the deducted aether refunded) whenever the opponent has at least one
occupied spirit slot and the attacker lacks `direct_attack`, and (b) succeeds
whenever the opponent has no spirits, dealing `max 0 power` to the opposing
wizard and consuming the attacker's cost. -/
theorem c7_guard_rule (g : GameState) (pid : Side) (slot tidx : Int) (sp : Card)
    (hphase : g.current_phase = Phase.INVOCATION)
    (hslot : 0 ≤ slot ∧ slot < ((g.player pid).spirit_slots.length : Int))
    (hsp : (g.player pid).spirit_slots.getD slot.toNat none = some sp)
    (haff : sp.activation_cost ≤ (g.player pid).aether) :
    (((g.player pid.other).spirit_slots.any Option.isSome = true →
        sp.effects.direct_attack = false →
        (attack_with_spirit g pid slot "wizard" tidx).1 = false ∧
        (attack_with_spirit g pid slot "wizard" tidx).2.2 = g) ∧
      ((g.player pid.other).spirit_slots.any Option.isSome = false →
        (attack_with_spirit g pid slot "wizard" tidx).1 = true ∧
        ((attack_with_spirit g pid slot "wizard" tidx).2.2.player pid.other).wizard_hp =
          max 0 ((g.player pid.other).wizard_hp - max 0 sp.power) ∧
        ((attack_with_spirit g pid slot "wizard" tidx).2.2.player pid).aether =
          (g.player pid).aether - sp.activation_cost)) := by
  have hnoaff : ¬((g.player pid).aether < sp.activation_cost) := not_lt.mpr haff
  have hnp : ¬(g.current_phase ≠ Phase.INVOCATION) := by simp [hphase]
  unfold attack_with_spirit
  rw [if_neg hnp, if_neg (not_not_intro hslot), hsp]
  simp only [hnoaff, if_false, beq_self_eq_true, if_true]
  constructor
  · intro hguard hnodirect
    simp [hguard, hnodirect]
  · intro hnoguard
    simp only [hnoguard, Bool.false_and, Bool.false_eq_true, if_false]
    by_cases hkill : (g.player pid.other).wizard_hp - max 0 sp.power ≤ 0
    · rw [if_pos hkill]
      simp [max_eq_left hkill]
    · rw [if_neg hkill]
      simp [max_eq_right (le_of_not_le hkill)]

/-- An Invocation-phase state: p1 has a Wolf on the board and 5 aether, p2 has
no spirits. -/
def gInvNoGuard : GameState :=
  { players1 := { freshPlayer with aether := 5, spirit_slots := [some wolf, none, none] }
    players2 := freshPlayer
    current_player := Side.p1
    current_phase := Phase.INVOCATION
    turn_count := 2
    game_over := false
    winner := none }

/-- Closed instance of `c7_guard_rule`: with no opposing spirits the attack on
the wizard succeeds and deals `max 0 power = 2`. -/
theorem c7_guard_rule_witness :
    (gInvNoGuard.current_phase = Phase.INVOCATION ∧
      (0 ≤ (0 : Int) ∧ (0 : Int) < ((gInvNoGuard.player Side.p1).spirit_slots.length : Int)) ∧
      (gInvNoGuard.player Side.p1).spirit_slots.getD (0 : Int).toNat none = some wolf ∧
      wolf.activation_cost ≤ (gInvNoGuard.player Side.p1).aether) ∧
    ((gInvNoGuard.player Side.p1.other).spirit_slots.any Option.isSome = false →
      (attack_with_spirit gInvNoGuard Side.p1 0 "wizard" 0).1 = true ∧
      ((attack_with_spirit gInvNoGuard Side.p1 0 "wizard" 0).2.2.player Side.p1.other).wizard_hp =
        max 0 ((gInvNoGuard.player Side.p1.other).wizard_hp - max 0 wolf.power) ∧
      ((attack_with_spirit gInvNoGuard Side.p1 0 "wizard" 0).2.2.player Side.p1).aether =
        (gInvNoGuard.player Side.p1).aether - wolf.activation_cost) :=
  ⟨⟨by decide, by decide, by decide, by decide⟩,
    (c7_guard_rule gInvNoGuard Side.p1 0 0 wolf (by decide) (by decide) (by decide)
      (by decide)).2⟩


/-! ## Activation lemmas (claims C5, C6, C10) -/

/-- Writing a position's own value back into a list changes nothing. -/
theorem set_getD_self (l : List (List Card)) (j : Nat) (h : j < l.length) :
    l.set j (l.getD j []) = l := by
  induction l generalizing j with
  | nil => simp at h
  | cons x xs ih =>
    cases j with
    | zero => simp [List.getD]
    | succ k =>
      simp only [List.length_cons, Nat.succ_lt_succ_iff] at h
      show x :: xs.set k ((x :: xs).getD (k + 1) []) = x :: xs
      rw [List.getD_cons_succ, ih k h]

/-- `setPlayer` with the side's own state is the identity. -/
theorem setPlayer_self (g : GameState) (s : Side) : g.setPlayer s (g.player s) = g := by
  cases s <;> rfl

/-- The effect-resolution branches the resolver recognizes: AoE damage against
enemy spirits, or a truthy `heal_wizard` amount. -/
def recognizedEffect (c : Card) : Bool :=
  (c.effects.aoe_damage && (c.effects.target == some "enemy_spirits")) || c.effects.healWizardTruthy

/-- C6 (amended): activating a spell whose `heal_wizard` amount `n` is nonzero
and that does not also carry the (precedence-taking) AoE-against-enemy-spirits
effect, with `c` copies of a non-empty stack affordable in the Invocation
phase, succeeds and sets the caster's wizard health to
`min 20 (wizardHealth + n * c)`. -/
theorem c6_heal_wizard (g : GameState) (pid : Side) (slot copies n : Int)
    (spell : Card) (rest : List Card)
    (hphase : g.current_phase = Phase.INVOCATION)
    (hslot : 0 ≤ slot ∧ slot < ((g.player pid).spell_slots.length : Int))
    (hstack : (g.player pid).spell_slots.getD slot.toNat [] = spell :: rest)
    (hheal : spell.effects.heal_wizard = some n) (hn : n ≠ 0)
    (hnoaoe : ¬(spell.effects.aoe_damage = true ∧ spell.effects.target = some "enemy_spirits"))
    (hc : copies ≤ ((spell :: rest).length : Int))
    (haff : spell.activation_cost * copies ≤ (g.player pid).aether) :
    (activate_spell g pid slot copies).1 = true ∧
    ((activate_spell g pid slot copies).2.2.player pid).wizard_hp =
      min 20 ((g.player pid).wizard_hp + n * copies) := by
  have hnp : ¬(g.current_phase ≠ Phase.INVOCATION) := by simp [hphase]
  unfold activate_spell
  rw [if_neg hnp, if_neg (not_not_intro hslot)]
  simp only [hstack]
  rw [if_neg (not_lt.mpr hc), if_neg (not_lt.mpr haff), if_neg hnoaoe]
  have htr : spell.effects.healWizardTruthy = true := by
    simp [Effects.healWizardTruthy, hheal, hn]
  rw [if_pos htr]
  simp [hheal]

/-- A spell whose only resolver-recognized effect is healing the wizard
(the catalog's Healing Wave). -/
def healCard : Card :=
  { name := "Healing Wave", ctype := "spell", activation_cost := 2, scaling := 0,
    effects := { heal_wizard := some 1, heal_spirit := some 4 } }

/-- An Invocation-phase state with a one-copy Healing Wave stack, a damaged
wizard and plenty of aether. -/
def gHeal : GameState :=
  { players1 :=
      { freshPlayer with
        wizard_hp := 10
        aether := 4
        spell_slots := [[healCard], [], [], []] }
    players2 := freshPlayer
    current_player := Side.p1
    current_phase := Phase.INVOCATION
    turn_count := 2
    game_over := false
    winner := none }

/-- Closed instance of `c6_heal_wizard`: one copy of Healing Wave heals the
wizard from 10 to `min 20 (10 + 1 * 1) = 11`. -/
theorem c6_heal_wizard_witness :
    (activate_spell gHeal Side.p1 0 1).1 = true ∧
    ((activate_spell gHeal Side.p1 0 1).2.2.player Side.p1).wizard_hp =
      min 20 ((gHeal.player Side.p1).wizard_hp + 1 * 1) :=
  c6_heal_wizard gHeal Side.p1 0 1 1 healCard [] (by decide) (by decide) (by decide)
    (by decide) (by decide) (by decide) (by decide) (by decide)

/-- A card carrying both the AoE effect and a `heal_wizard` amount. -/
def mixSpell : Card :=
  { name := "Scorching Mend", ctype := "spell", activation_cost := 0, scaling := 2,
    effects := { aoe_damage := true, target := some "enemy_spirits", heal_wizard := some 1 } }

/-- `gHeal` with the Healing Wave stack replaced by the mixed-effect card. -/
def gHealMix : GameState :=
  { players1 :=
      { freshPlayer with
        wizard_hp := 10
        aether := 4
        spell_slots := [[mixSpell], [], [], []] }
    players2 := freshPlayer
    current_player := Side.p1
    current_phase := Phase.INVOCATION
    turn_count := 2
    game_over := false
    winner := none }

/-- C6, counterexample: a spell with the `HealWizard(1)` effect, activated with
one copy of a non-empty stack in the Invocation phase with enough aether,
succeeds but leaves the caster's wizard health unchanged (the AoE branch of the
resolver takes precedence), so the health is not increased by `n × c`. -/
theorem c6_counterexample :
    mixSpell.effects.heal_wizard = some 1 ∧
    gHealMix.current_phase = Phase.INVOCATION ∧
    (activate_spell gHealMix Side.p1 0 1).1 = true ∧
    ((activate_spell gHealMix Side.p1 0 1).2.2.player Side.p1).wizard_hp = 10 ∧
    ¬(((activate_spell gHealMix Side.p1 0 1).2.2.player Side.p1).wizard_hp =
        (gHealMix.player Side.p1).wizard_hp + 1 * 1) := by
  decide

/-- Zero AoE damage leaves a live, nonnegative-defense slot unchanged. -/
theorem aoeSurvivor_zero (o : Option Card)
    (h : ∀ sp, o = some sp → 0 < sp.current_hp ∧ 0 ≤ sp.defense) :
    aoeSurvivor 0 o = o := by
  cases o with
  | none => rfl
  | some sp =>
    obtain ⟨hhp, hdef⟩ := h sp rfl
    simp only [aoeSurvivor]
    rw [max_eq_left (by omega : (0 : Int) - sp.defense ≤ 0), sub_zero,
      if_neg (by omega : ¬sp.current_hp ≤ 0)]

/-- Zero AoE damage kills nothing in a live, nonnegative-defense slot. -/
theorem aoeCasualty_zero (o : Option Card)
    (h : ∀ sp, o = some sp → 0 < sp.current_hp ∧ 0 ≤ sp.defense) :
    aoeCasualty 0 o = none := by
  cases o with
  | none => rfl
  | some sp =>
    obtain ⟨hhp, hdef⟩ := h sp rfl
    simp only [aoeCasualty]
    rw [max_eq_left (by omega : (0 : Int) - sp.defense ≤ 0), sub_zero,
      if_neg (by omega : ¬sp.current_hp ≤ 0)]

/-- C10: requesting zero copies of a recognized, stacked spell in the
Invocation phase succeeds and leaves the whole match state unchanged, provided
the state is well formed where it matters (occupied opposing spirit slots hold
living spirits with nonnegative defense, the caster's wizard health is at most
20 and their aether nonnegative — all invariants of reachable states): no
aether is deducted, no health changes, and no cards move. -/
theorem c10_zero_copies_noop (g : GameState) (pid : Side) (slot : Int)
    (spell : Card) (rest : List Card)
    (hphase : g.current_phase = Phase.INVOCATION)
    (hslot : 0 ≤ slot ∧ slot < ((g.player pid).spell_slots.length : Int))
    (hstack : (g.player pid).spell_slots.getD slot.toNat [] = spell :: rest)
    (hrec : recognizedEffect spell = true)
    (hspirits : ∀ sp ∈ (g.player pid.other).spirit_slots.reduceOption,
      0 < sp.current_hp ∧ 0 ≤ sp.defense)
    (hhp : (g.player pid).wizard_hp ≤ 20)
    (haeth : 0 ≤ (g.player pid).aether) :
    (activate_spell g pid slot 0).1 = true ∧
    (activate_spell g pid slot 0).2.2 = g := by
  have hspirits' : ∀ sp, some sp ∈ (g.player pid.other).spirit_slots →
      0 < sp.current_hp ∧ 0 ≤ sp.defense := by
    intro sp hsp
    exact hspirits sp (List.reduceOption_mem_iff.mpr hsp)
  have hnp : ¬(g.current_phase ≠ Phase.INVOCATION) := by simp [hphase]
  have hlen : ¬(((spell :: rest).length : Int) < 0) := not_lt.mpr (Int.natCast_nonneg _)
  have hjlt : slot.toNat < (g.player pid).spell_slots.length := by omega
  have hsetback : (g.player pid).spell_slots.set slot.toNat (spell :: rest) =
      (g.player pid).spell_slots := by
    rw [← hstack]; exact set_getD_self _ _ hjlt
  unfold activate_spell
  rw [if_neg hnp, if_neg (not_not_intro hslot)]
  simp only [hstack]
  rw [if_neg hlen,
    show spell.activation_cost * 0 = 0 from mul_zero _, if_neg (not_lt.mpr haeth)]
  by_cases hcond : spell.effects.aoe_damage = true ∧ spell.effects.target = some "enemy_spirits"
  · rw [if_pos hcond]
    refine ⟨rfl, ?_⟩
    show ((g.setPlayer pid _).setPlayer pid.other _) = g
    have hmap : (g.player pid.other).spirit_slots.map (aoeSurvivor (spell.scaling * 0)) =
        (g.player pid.other).spirit_slots := by
      rw [mul_zero]
      calc (g.player pid.other).spirit_slots.map (aoeSurvivor 0)
          = (g.player pid.other).spirit_slots.map id := by
            apply List.map_congr_left
            intro o ho
            exact aoeSurvivor_zero o fun sp hsp => hspirits' sp (hsp ▸ ho)
        _ = (g.player pid.other).spirit_slots := List.map_id _
    have hdead : (g.player pid.other).spirit_slots.filterMap (aoeCasualty (spell.scaling * 0)) =
        [] := by
      rw [mul_zero, List.filterMap_eq_nil_iff]
      intro o ho
      exact aoeCasualty_zero o fun sp hsp => hspirits' sp (hsp ▸ ho)
    rw [hmap, hdead, List.append_nil]
    rw [show popMany (Int.toNat 0) (spell :: rest) (g.player pid).discard =
        (spell :: rest, (g.player pid).discard) from rfl]
    simp only [sub_zero, hsetback]
    rw [setPlayer_self, setPlayer_self]
  · rw [if_neg hcond]
    have htr : spell.effects.healWizardTruthy = true := by
      have h : spell.effects.aoe_damage = true ∧ spell.effects.target = some "enemy_spirits" ∨
          spell.effects.healWizardTruthy = true := by
        simpa [recognizedEffect] using hrec
      rcases h with h | h
      · exact absurd h hcond
      · exact h
    rw [if_pos htr]
    refine ⟨rfl, ?_⟩
    show (g.setPlayer pid _) = g
    rw [show spell.effects.heal_wizard.getD 0 * 0 = 0 from mul_zero _, add_zero,
      min_eq_right hhp]
    rw [show popMany (Int.toNat 0) (spell :: rest) (g.player pid).discard =
        (spell :: rest, (g.player pid).discard) from rfl]
    simp only [sub_zero, hsetback]
    rw [setPlayer_self]

/-- Closed instance of `c10_zero_copies_noop`: zero copies of the stacked
Healing Wave in `gHeal` succeed and change nothing. -/
theorem c10_zero_copies_noop_witness :
    (activate_spell gHeal Side.p1 0 0).1 = true ∧
    (activate_spell gHeal Side.p1 0 0).2.2 = gHeal :=
  c10_zero_copies_noop gHeal Side.p1 0 healCard [] (by decide) (by decide) (by decide)
    (by decide) (by decide) (by decide) (by decide)

/-- Reading back the side just written. -/
@[simp] theorem GameState.player_setPlayer_same (g : GameState) (s : Side) (p : PlayerState) :
    (g.setPlayer s p).player s = p := by
  cases s <;> rfl

/-- Reading the other side after a write. -/
theorem GameState.player_setPlayer_other (g : GameState) (s t : Side) (p : PlayerState)
    (h : t ≠ s) : (g.setPlayer s p).player t = g.player t := by
  cases s <;> cases t <;> first | rfl | exact absurd rfl h

/-- Popping `n ≤ |st|` cards off the end of `st` onto `dc`: the stack keeps the
first `|st| - n` cards, and the popped cards arrive on `dc` last-first. -/
theorem popMany_spec (n : Nat) (st dc : List Card) (h : n ≤ st.length) :
    popMany n st dc = ((st.reverse.drop n).reverse, dc ++ st.reverse.take n) := by
  induction n generalizing st dc with
  | zero => simp [popMany]
  | succ m ih =>
    rcases List.eq_nil_or_concat st with h0 | ⟨d, c, h1⟩
    · subst h0
      exact absurd h (by simp)
    · subst h1
      simp only [List.concat_eq_append] at h ⊢
      have hd : m ≤ d.length := by
        simp only [List.length_append, List.length_cons, List.length_nil] at h
        omega
      have hstep : popMany (m + 1) (d ++ [c]) dc = popMany m d (dc ++ [c]) := by
        simp [popMany, List.getLast?_concat, List.dropLast_concat]
      rw [hstep, ih d (dc ++ [c]) hd, List.reverse_concat]
      simp [List.append_assoc]

/-- C5: activating a spell carrying `AoeDamage(enemySpirits)` with `c` copies
in the Invocation phase, with the total cost affordable, succeeds (also when no
opposing spirit is present), deducts `cost × c` aether, hits every occupied
opposing slot once with `max 0 (scaling × c − defense)` applied to that
spirit's own health (moving a spirit whose resulting health drops to `≤ 0` into
its owner's discard and clearing the slot, keeping the damaged survivor
otherwise), leaves empty opposing slots empty, and discards exactly `c` copies
off the stack into the caster's discard. -/
theorem c5_aoe_damage (g : GameState) (pid : Side) (slot copies : Int)
    (spell : Card) (rest : List Card)
    (hphase : g.current_phase = Phase.INVOCATION)
    (hslot : 0 ≤ slot ∧ slot < ((g.player pid).spell_slots.length : Int))
    (hstack : (g.player pid).spell_slots.getD slot.toNat [] = spell :: rest)
    (haoe : spell.effects.aoe_damage = true)
    (htgt : spell.effects.target = some "enemy_spirits")
    (hcnn : 0 ≤ copies) (hc : copies ≤ ((spell :: rest).length : Int))
    (haff : spell.activation_cost * copies ≤ (g.player pid).aether) :
    (activate_spell g pid slot copies).1 = true ∧
    ((activate_spell g pid slot copies).2.2.player pid).aether =
      (g.player pid).aether - spell.activation_cost * copies ∧
    (∀ j sp, (g.player pid.other).spirit_slots.get? j = some (some sp) →
      (sp.current_hp - max 0 (spell.scaling * copies - sp.defense) ≤ 0 →
        ((activate_spell g pid slot copies).2.2.player pid.other).spirit_slots.get? j =
          some none ∧
        { sp with current_hp := sp.current_hp - max 0 (spell.scaling * copies - sp.defense) } ∈
          ((activate_spell g pid slot copies).2.2.player pid.other).discard) ∧
      (0 < sp.current_hp - max 0 (spell.scaling * copies - sp.defense) →
        ((activate_spell g pid slot copies).2.2.player pid.other).spirit_slots.get? j =
          some (some { sp with
            current_hp := sp.current_hp - max 0 (spell.scaling * copies - sp.defense) }))) ∧
    (∀ j, (g.player pid.other).spirit_slots.get? j = some none →
      ((activate_spell g pid slot copies).2.2.player pid.other).spirit_slots.get? j =
        some none) ∧
    ((activate_spell g pid slot copies).2.2.player pid).spell_slots.getD slot.toNat [] =
      ((spell :: rest).reverse.drop copies.toNat).reverse ∧
    (((activate_spell g pid slot copies).2.2.player pid).spell_slots.getD slot.toNat []).length =
      (spell :: rest).length - copies.toNat ∧
    ((activate_spell g pid slot copies).2.2.player pid).discard =
      (g.player pid).discard ++ (spell :: rest).reverse.take copies.toNat := by
  have hnp : ¬(g.current_phase ≠ Phase.INVOCATION) := by simp [hphase]
  have hjlt : slot.toNat < (g.player pid).spell_slots.length := by omega
  have hcu : copies.toNat ≤ (spell :: rest).length := by omega
  have hpo : pid ≠ pid.other := Side.ne_other pid
  unfold activate_spell
  rw [if_neg hnp, if_neg (not_not_intro hslot)]
  simp only [hstack]
  rw [if_neg (not_lt.mpr hc), if_neg (not_lt.mpr haff), if_pos ⟨haoe, htgt⟩,
    popMany_spec copies.toNat (spell :: rest) (g.player pid).discard hcu]
  refine ⟨rfl, ?_, ?_, ?_, ?_, ?_, ?_⟩
  · rw [GameState.player_setPlayer_other _ _ _ _ hpo, GameState.player_setPlayer_same]
  · intro j sp hj
    constructor
    · intro hdead
      constructor
      · rw [GameState.player_setPlayer_same]
        show (List.map (aoeSurvivor (spell.scaling * copies))
          (g.player pid.other).spirit_slots).get? j = some none
        rw [List.get?_map, hj, Option.map_some']
        simp only [aoeSurvivor]
        rw [if_pos hdead]
      · rw [GameState.player_setPlayer_same]
        show _ ∈ (g.player pid.other).discard ++
          List.filterMap (aoeCasualty (spell.scaling * copies)) (g.player pid.other).spirit_slots
        refine List.mem_append_right _ (List.mem_filterMap.mpr ⟨some sp, List.get?_mem hj, ?_⟩)
        simp only [aoeCasualty]
        rw [if_pos hdead]
    · intro hlive
      rw [GameState.player_setPlayer_same]
      show (List.map (aoeSurvivor (spell.scaling * copies))
        (g.player pid.other).spirit_slots).get? j = _
      rw [List.get?_map, hj, Option.map_some']
      simp only [aoeSurvivor]
      rw [if_neg (by omega : ¬(sp.current_hp - max 0 (spell.scaling * copies - sp.defense) ≤ 0))]
  · intro j hj
    rw [GameState.player_setPlayer_same]
    show (List.map (aoeSurvivor (spell.scaling * copies))
      (g.player pid.other).spirit_slots).get? j = some none
    rw [List.get?_map, hj, Option.map_some']
    rfl
  · rw [GameState.player_setPlayer_other _ _ _ _ hpo, GameState.player_setPlayer_same]
    show ((g.player pid).spell_slots.set slot.toNat
      ((List.drop copies.toNat (spell :: rest).reverse).reverse)).getD slot.toNat [] = _
    rw [List.getD, List.get?_set_eq_of_lt _ (by simpa using hjlt), Option.getD_some]
  · rw [GameState.player_setPlayer_other _ _ _ _ hpo, GameState.player_setPlayer_same]
    show (((g.player pid).spell_slots.set slot.toNat
      ((List.drop copies.toNat (spell :: rest).reverse).reverse)).getD slot.toNat []).length = _
    rw [List.getD, List.get?_set_eq_of_lt _ (by simpa using hjlt), Option.getD_some]
    simp
  · rw [GameState.player_setPlayer_other _ _ _ _ hpo, GameState.player_setPlayer_same]

/-- A 3-scaling AoE spell (the catalog's Firestorm). -/
def fire : Card :=
  { name := "Firestorm", ctype := "spell", activation_cost := 3, scaling := 3,
    effects := { aoe_damage := true, target := some "enemy_spirits" } }

/-- A defender with defense 1 and 6 health. -/
def defA : Card :=
  { name := "Moss Turtle", ctype := "spirit", activation_cost := 1, power := 1, defense := 1,
    max_hp := 6, current_hp := 6 }

/-- A defender with defense 2 and 4 health. -/
def defB : Card :=
  { name := "Iron Beetle", ctype := "spirit", activation_cost := 1, power := 1, defense := 2,
    max_hp := 4, current_hp := 4 }

/-- Invocation state: p1 stacks two Firestorms with 16 aether; p2 fields the
two defenders. -/
def gAoe : GameState :=
  { players1 :=
      { freshPlayer with
        aether := 16
        spell_slots := [[fire, fire], [], [], []] }
    players2 := { freshPlayer with spirit_slots := [some defA, some defB, none] }
    current_player := Side.p1
    current_phase := Phase.INVOCATION
    turn_count := 4
    game_over := false
    winner := none }

/-- Closed instance of `c5_aoe_damage`, matching the spec's worked AoE example:
3-scaling, 2 copies, defenders of defense 1 and 2 take 5 and 4; the second dies
into its owner's discard, the first survives on 1 health. -/
theorem c5_aoe_damage_witness :
    (activate_spell gAoe Side.p1 0 2).1 = true ∧
    ((activate_spell gAoe Side.p1 0 2).2.2.player Side.p2).spirit_slots.get? 0 =
      some (some { defA with current_hp := defA.current_hp - max 0 (fire.scaling * 2 - defA.defense) }) ∧
    ((activate_spell gAoe Side.p1 0 2).2.2.player Side.p2).spirit_slots.get? 1 = some none ∧
    { defB with current_hp := defB.current_hp - max 0 (fire.scaling * 2 - defB.defense) } ∈
      ((activate_spell gAoe Side.p1 0 2).2.2.player Side.p2).discard ∧
    ((activate_spell gAoe Side.p1 0 2).2.2.player Side.p1).aether =
      (gAoe.player Side.p1).aether - fire.activation_cost * 2 := by
  have h := c5_aoe_damage gAoe Side.p1 0 2 fire [fire] (by decide) (by decide) (by decide)
    (by decide) (by decide) (by decide) (by decide) (by decide)
  refine ⟨h.1, ?_, ?_, ?_, h.2.1⟩
  · exact (h.2.2.1 0 defA (by decide)).2 (by decide)
  · exact ((h.2.2.1 1 defB (by decide)).1 (by decide)).1
  · exact ((h.2.2.1 1 defB (by decide)).1 (by decide)).2

/-! ## C4: the phase state machine -/

/-- Updating only the scalar match fields leaves both player states alone. -/
theorem GameState.player_scalars (g : GameState) (a : Side) (b : Phase) (c : Int) (s : Side) :
    ({ g with current_player := a, current_phase := b, turn_count := c } : GameState).player s =
      g.player s := by
  cases s <;> rfl

/-- C4: `next_phase` is a no-op when the game is over; from any phase but
`RESPITE` it only moves `currentPhase` one step along the cycle (no upkeep);
from `RESPITE` it hands the turn to the opponent in `ATTAINMENT`, increments
`turnCount` exactly when the new side is the starting side (p1), leaves the
outgoing side untouched and runs upkeep for the new side: hand grows by the
deck's top card (after reshuffling the discard into the deck when the deck is
empty; unchanged when both are empty), aether gains 2 capped at `maxAether`,
and both per-turn flags reset. -/
theorem c4_next_phase (g g' : GameState) (h : NextPhaseRel g g') :
    (g.game_over = true → g' = g) ∧
    (g.game_over = false → g.current_phase ≠ Phase.RESPITE →
      g' = { g with current_phase := g.current_phase.succ }) ∧
    (g.game_over = false → g.current_phase = Phase.RESPITE →
      g'.current_player = g.current_player.other ∧
      g'.current_phase = Phase.ATTAINMENT ∧
      g'.turn_count = g.turn_count + (if g.current_player.other = Side.p1 then 1 else 0) ∧
      g'.player g.current_player = g.player g.current_player ∧
      ((g'.player g.current_player.other).aether =
        min ((g.player g.current_player.other).aether + 2)
          (g.player g.current_player.other).max_aether) ∧
      (g'.player g.current_player.other).placed_card_this_turn = false ∧
      (g'.player g.current_player.other).wizard_ability_used = false ∧
      ((g.player g.current_player.other).deck = [] →
        (g.player g.current_player.other).discard = [] →
        (g'.player g.current_player.other).hand = (g.player g.current_player.other).hand) ∧
      (∀ c d, (g.player g.current_player.other).deck = d ++ [c] →
        (g'.player g.current_player.other).hand = (g.player g.current_player.other).hand ++ [c] ∧
        (g'.player g.current_player.other).deck = d) ∧
      ((g.player g.current_player.other).deck = [] →
        (g.player g.current_player.other).discard ≠ [] →
        ∃ c d, (d ++ [c]).Perm (g.player g.current_player.other).discard ∧
          (g'.player g.current_player.other).hand =
            (g.player g.current_player.other).hand ++ [c] ∧
          (g'.player g.current_player.other).deck = d ∧
          (g'.player g.current_player.other).discard = [])) := by
  cases h with
  | over hov =>
    refine ⟨fun _ => rfl, fun hno => absurd hov (by simp [hno]), fun hno => absurd hov (by simp [hno])⟩
  | advance hov hp =>
    refine ⟨fun hyes => absurd hyes (by simp [hov]), fun _ _ => rfl, fun _ hresp => absurd hresp hp⟩
  | wrap q hov hp hup =>
    refine ⟨fun hyes => absurd hyes (by simp [hov]), fun _ hnresp => absurd hp hnresp, fun _ _ => ?_⟩
    obtain ⟨qd, hdraw, rfl⟩ := hup
    refine ⟨by simp, by simp, by simp, ?_, ?_, ?_, ?_, ?_, ?_, ?_⟩
    · rw [GameState.player_setPlayer_other _ _ _ _ (Side.ne_other _), GameState.player_scalars]
    · rw [GameState.player_setPlayer_same]
      cases hdraw <;> rfl
    · rw [GameState.player_setPlayer_same]
      cases hdraw <;> rfl
    · rw [GameState.player_setPlayer_same]
      cases hdraw <;> rfl
    · intro hdeck hdisc
      rw [GameState.player_setPlayer_same]
      cases hdraw with
      | fromDeck c d hdc => exact absurd (hdc ▸ hdeck) (by simp)
      | reshuffle c d hdc hperm =>
        have : (d ++ [c] : List Card) = [] := (hdisc ▸ hperm).eq_nil
        simp at this
      | bothEmpty h1 h2 => rfl
    · intro c d hdc
      rw [GameState.player_setPlayer_same]
      cases hdraw with
      | fromDeck c0 d0 hdc0 =>
        have heq : d0 ++ [c0] = d ++ [c] := hdc0 ▸ hdc
        obtain ⟨hd, hc⟩ := List.append_inj' heq rfl
        simp only [List.cons.injEq, and_true] at hc
        subst hc
        subst hd
        exact ⟨rfl, rfl⟩
      | reshuffle c0 d0 hdeck0 hperm => exact absurd (hdeck0 ▸ hdc).symm (by simp)
      | bothEmpty h1 h2 => exact absurd (h1 ▸ hdc).symm (by simp)
    · intro hdeck hdisc
      rw [GameState.player_setPlayer_same]
      cases hdraw with
      | fromDeck c d hdc => exact absurd (hdc ▸ hdeck) (by simp)
      | reshuffle c d hdc hperm => exact ⟨c, d, hperm, rfl, rfl, rfl⟩
      | bothEmpty h1 h2 => exact absurd h2 hdisc

/-- Closed instance of `c4_next_phase`: on a finished game, `next_phase` is
a no-op. -/
theorem c4_next_phase_witness :
    gOverWrongSide.game_over = true ∧ gOverWrongSide = gOverWrongSide :=
  ⟨by decide, (c4_next_phase gOverWrongSide gOverWrongSide
    (NextPhaseRel.over gOverWrongSide (by decide))).1 (by decide)⟩

/-! ## C8: at most one placement per side per turn -/

/-- Updating only the terminal-outcome fields leaves both player states alone. -/
theorem GameState.player_over_winner (g : GameState) (b : Bool) (w : Option Side) (s : Side) :
    ({ g with game_over := b, winner := w } : GameState).player s = g.player s := by
  cases s <;> rfl

/-- The four calls gated by `placed_card_this_turn`, made by the given side. -/
def isPlacementFor (sid : Side) : Act → Prop
  | .summon p _ _ => p = sid
  | .prepare p _ _ => p = sid
  | .replace p _ _ => p = sid
  | .ability p => p = sid
  | .activate _ _ _ => False
  | .attack _ _ _ _ => False

/-- No resolver operation ever clears a side's `placed_card_this_turn` flag. -/
theorem placed_flag_monotone (a : Act) (g : GameState) (sid : Side)
    (hflag : (g.player sid).placed_card_this_turn = true) :
    ((applyAct a g).2.2.player sid).placed_card_this_turn = true := by
  cases a <;>
    simp only [applyAct, summon_spirit, prepare_spell, replace_spell, use_wizard_ability,
      activate_spell, attack_with_spirit] <;>
    repeat' split
  all_goals
    simp only [GameState.player_setPlayer, GameState.player_over_winner]
  all_goals repeat' split
  all_goals
    first
    | exact hflag
    | rfl
    | (rename_i hEq; rw [← hEq]; exact hflag)

/-- Every placement call either fails or sets the acting side's flag. -/
theorem placement_result (a : Act) (g : GameState) (sid : Side)
    (hp : isPlacementFor sid a) :
    (applyAct a g).1 = false ∨
      ((applyAct a g).2.2.player sid).placed_card_this_turn = true := by
  cases a with
  | summon p n sl =>
    rw [show p = sid from hp]
    simp only [applyAct, summon_spirit]
    repeat' split
    all_goals simp
  | prepare p n sl =>
    rw [show p = sid from hp]
    simp only [applyAct, prepare_spell]
    repeat' split
    all_goals simp
  | replace p n sl =>
    rw [show p = sid from hp]
    simp only [applyAct, replace_spell]
    repeat' split
    all_goals simp
  | ability p =>
    rw [show p = sid from hp]
    simp only [applyAct, use_wizard_ability]
    repeat' split
    all_goals simp
  | activate p sl c => exact absurd hp not_false
  | attack p sl tt ti => exact absurd hp not_false

/-- A successful placement call sets the acting side's flag. -/
theorem placed_flag_after_success (a : Act) (g : GameState) (sid : Side)
    (hp : isPlacementFor sid a) (hs : (applyAct a g).1 = true) :
    ((applyAct a g).2.2.player sid).placed_card_this_turn = true := by
  rcases placement_result a g sid hp with hf | ht
  · rw [hs] at hf
    exact absurd hf (by simp)
  · exact ht

/-- With the flag set, each of the four placement calls by that side fails and
leaves the state unchanged. -/
theorem placed_flag_blocks (a : Act) (g : GameState) (sid : Side)
    (hp : isPlacementFor sid a)
    (hflag : (g.player sid).placed_card_this_turn = true) :
    (applyAct a g).1 = false ∧ (applyAct a g).2.2 = g := by
  cases a with
  | summon p n sl =>
    rw [show p = sid from hp] at *
    by_cases h1 : g.current_phase ≠ Phase.MEMORIZATION
    · simp [applyAct, summon_spirit, h1]
    · simp [applyAct, summon_spirit, h1, hflag]
  | prepare p n sl =>
    rw [show p = sid from hp] at *
    by_cases h1 : g.current_phase ≠ Phase.MEMORIZATION
    · simp [applyAct, prepare_spell, h1]
    · simp [applyAct, prepare_spell, h1, hflag]
  | replace p n sl =>
    rw [show p = sid from hp] at *
    by_cases h1 : g.current_phase ≠ Phase.MEMORIZATION
    · simp [applyAct, replace_spell, h1]
    · simp [applyAct, replace_spell, h1, hflag]
  | ability p =>
    rw [show p = sid from hp] at *
    by_cases h1 : g.current_phase ≠ Phase.MEMORIZATION
    · simp [applyAct, use_wizard_ability, h1]
    · simp [applyAct, use_wizard_ability, h1, hflag]
  | activate p sl c => exact absurd hp not_false
  | attack p sl tt ti => exact absurd hp not_false

/-- A phase advance that is not the given side's Attunement upkeep preserves
that side's flag. -/
theorem placed_flag_phase (g g' : GameState) (sid : Side) (h : NextPhaseRel g g')
    (hnot : ¬(g.current_phase = Phase.RESPITE ∧ g.game_over = false ∧
      g.current_player.other = sid))
    (hflag : (g.player sid).placed_card_this_turn = true) :
    (g'.player sid).placed_card_this_turn = true := by
  cases h with
  | over hov => exact hflag
  | advance hov hp =>
    show (({ g with current_phase := g.current_phase.succ } : GameState).player sid).placed_card_this_turn = true
    have : ({ g with current_phase := g.current_phase.succ } : GameState).player sid = g.player sid := by
      cases sid <;> rfl
    rw [this]
    exact hflag
  | wrap q hov hp hup =>
    have hne : g.current_player.other ≠ sid := fun hc => hnot ⟨hp, hov, hc⟩
    rw [GameState.player_setPlayer_other _ _ _ _ (Ne.symm hne), GameState.player_scalars]
    exact hflag

/-- A transition that is not the given side's Attunement upkeep: any action
call, or a phase advance other than a `RESPITE` wrap handing the turn to that
side. -/
def NoUpkeepFor (sid : Side) (g g' : GameState) : Prop :=
  (∃ a : Act, g' = (applyAct a g).2.2) ∨
  (NextPhaseRel g g' ∧
    ¬(g.current_phase = Phase.RESPITE ∧ g.game_over = false ∧ g.current_player.other = sid))

/-- C8: once one of {summon, prepare, replace, use-ability} has succeeded for a
side, every further such call by that side fails and leaves the state
unchanged, across any interleaving of actions and phase advances that does not
contain that side's Attunement upkeep — so at most one of the four succeeds per
side between its consecutive upkeeps. -/
theorem c8_one_placement_per_turn (sid : Side) (a1 a2 : Act) (g0 g2 : GameState)
    (h1 : isPlacementFor sid a1) (h2 : isPlacementFor sid a2)
    (hs : (applyAct a1 g0).1 = true)
    (hr : Relation.ReflTransGen (NoUpkeepFor sid) ((applyAct a1 g0).2.2) g2) :
    (applyAct a2 g2).1 = false ∧ (applyAct a2 g2).2.2 = g2 := by
  have hflag2 : (g2.player sid).placed_card_this_turn = true := by
    have h0 := placed_flag_after_success a1 g0 sid h1 hs
    induction hr with
    | refl => exact h0
    | tail hstep hlast ih =>
      rcases hlast with ⟨a, rfl⟩ | ⟨hph, hnot⟩
      · exact placed_flag_monotone a _ sid ih
      · exact placed_flag_phase _ _ sid hph hnot ih
  exact placed_flag_blocks a2 g2 sid h2 hflag2

/-- Closed instance of `c8_one_placement_per_turn`: after p1 summons the Wolf
in `gMem`, an immediate `use_wizard_ability` by p1 fails and changes nothing. -/
theorem c8_one_placement_per_turn_witness :
    (applyAct (Act.summon Side.p1 "Wolf" 0) gMem).1 = true ∧
    ((applyAct (Act.ability Side.p1) ((applyAct (Act.summon Side.p1 "Wolf" 0) gMem).2.2)).1 =
        false ∧
      (applyAct (Act.ability Side.p1) ((applyAct (Act.summon Side.p1 "Wolf" 0) gMem).2.2)).2.2 =
        (applyAct (Act.summon Side.p1 "Wolf" 0) gMem).2.2) :=
  ⟨by decide,
    c8_one_placement_per_turn Side.p1 (Act.summon Side.p1 "Wolf" 0) (Act.ability Side.p1)
      gMem _ rfl rfl (by decide) Relation.ReflTransGen.refl⟩

/-! ## C1: the numeric match invariants -/

/-- The card-definition facts the invariants rest on: catalog cards have
nonnegative activation costs and heal amounts. -/
def WFCard (c : Card) : Prop :=
  0 ≤ c.activation_cost ∧ 0 ≤ c.effects.heal_wizard.getD 0

/-- Every card a player owns, over all containers. -/
def PlayerState.allCards (p : PlayerState) : List Card :=
  p.hand ++ p.deck ++ p.discard ++ p.spirit_slots.reduceOption ++ p.spell_slots.join

/-- All of one player's cards are well formed. -/
def WFPlayer (p : PlayerState) : Prop := ∀ c ∈ p.allCards, WFCard c

/-- All cards in the match are well formed. -/
def WFState (g : GameState) : Prop := ∀ s : Side, WFPlayer (g.player s)

/-- The claimed numeric invariants of the match state. -/
def Inv (g : GameState) : Prop :=
  ∀ s : Side,
    0 ≤ (g.player s).aether ∧ (g.player s).aether ≤ 16 ∧ (g.player s).max_aether = 16 ∧
    0 ≤ (g.player s).wizard_hp ∧ (g.player s).wizard_hp ≤ 20 ∧
    ((g.player s).wizard_hp = 0 → g.game_over = true ∧ g.winner = some s.other)

/-- `extractFirst` returns a card of the list and a sublist of it. -/
theorem extractFirst_mem {q : Card → Bool} {l rest : List Card} {c : Card}
    (h : extractFirst q l = some (c, rest)) : c ∈ l ∧ ∀ x ∈ rest, x ∈ l := by
  induction l generalizing rest with
  | nil => simp [extractFirst] at h
  | cons a as ih =>
    by_cases hq : q a
    · rw [extractFirst, if_pos hq] at h
      obtain ⟨rfl, rfl⟩ := by simpa using h
      exact ⟨List.mem_cons_self _ _, fun x hx => List.mem_cons_of_mem _ hx⟩
    · rw [extractFirst, if_neg hq] at h
      rcases hrec : extractFirst q as with _ | ⟨c0, rest0⟩
      · rw [hrec] at h; simp at h
      · rw [hrec] at h
        obtain ⟨rfl, rfl⟩ : c0 = c ∧ a :: rest0 = rest := by simpa using h
        obtain ⟨hm, hsub⟩ := ih hrec
        refine ⟨List.mem_cons_of_mem _ hm, fun x hx => ?_⟩
        rcases List.mem_cons.mp hx with rfl | hx
        · exact List.mem_cons_self _ _
        · exact List.mem_cons_of_mem _ (hsub x hx)

/-- An in-range `getD` is a member. -/
theorem getD_mem {α : Type} {l : List α} {j : Nat} {d : α} (h : j < l.length) :
    l.getD j d ∈ l := by
  induction l generalizing j with
  | nil => simp at h
  | cons a as ih =>
    cases j with
    | zero => simp [List.getD]
    | succ k =>
      rw [List.getD_cons_succ]
      exact List.mem_cons_of_mem _ (ih (by simpa using h))

/-- Wrapper: a player state whose cards all come from a well-formed pool (or
are themselves well formed) is well formed. -/
theorem WFPlayer_of_sub (p p' : PlayerState) (hWF : WFPlayer p)
    (hsub : ∀ c ∈ p'.allCards, c ∈ p.allCards ∨ WFCard c) : WFPlayer p' := by
  intro c hc
  rcases hsub c hc with h | h
  · exact hWF c h
  · exact h

/-- Rebuilding `WFState` after writing one side. -/
theorem WFState_setPlayer (g : GameState) (pid : Side) (p' : PlayerState)
    (hWF : WFState g) (hp' : WFPlayer p') : WFState (g.setPlayer pid p') := by
  intro s
  rw [GameState.player_setPlayer]
  split
  · exact hp'
  · exact hWF s

/-- Rebuilding `Inv` after a write that keeps the side's scalar resources. -/
theorem Inv_setPlayer_same_scalars (g : GameState) (pid : Side) (p' : PlayerState)
    (hInv : Inv g)
    (ha : p'.aether = (g.player pid).aether)
    (hh : p'.wizard_hp = (g.player pid).wizard_hp)
    (hm : p'.max_aether = (g.player pid).max_aether) :
    Inv (g.setPlayer pid p') := by
  intro s
  rw [GameState.player_setPlayer, GameState.setPlayer_over, GameState.setPlayer_winner]
  split
  · rename_i hs
    subst hs
    rw [ha, hh, hm]
    exact hInv s
  · exact hInv s

/-- Hand membership feeds `allCards`. -/
theorem mem_allCards_of_hand {p : PlayerState} {c : Card} (h : c ∈ p.hand) :
    c ∈ p.allCards := by
  simp [PlayerState.allCards]
  tauto

/-- Spirit-slot membership feeds `allCards`. -/
theorem mem_allCards_of_spirit {p : PlayerState} {c : Card} (h : some c ∈ p.spirit_slots) :
    c ∈ p.allCards := by
  simp [PlayerState.allCards, List.reduceOption_mem_iff]
  tauto

/-- Spell-stack membership feeds `allCards`. -/
theorem mem_allCards_of_spell {p : PlayerState} {c : Card} {st : List Card}
    (hst : st ∈ p.spell_slots) (h : c ∈ st) : c ∈ p.allCards := by
  simp [PlayerState.allCards, List.mem_join]
  tauto

/-- Deck membership feeds `allCards`. -/
theorem mem_allCards_of_deck {p : PlayerState} {c : Card} (h : c ∈ p.deck) :
    c ∈ p.allCards := by
  simp [PlayerState.allCards]
  tauto

/-- Discard membership feeds `allCards`. -/
theorem mem_allCards_of_discard {p : PlayerState} {c : Card} (h : c ∈ p.discard) :
    c ∈ p.allCards := by
  simp [PlayerState.allCards]
  tauto

/-- `popMany` only moves cards from the stack to the discard pile. -/
theorem popMany_subsets (n : Nat) (st dc : List Card) :
    (∀ x ∈ (popMany n st dc).1, x ∈ st) ∧
      (∀ x ∈ (popMany n st dc).2, x ∈ dc ∨ x ∈ st) := by
  induction n generalizing st dc with
  | zero => exact ⟨fun x hx => hx, fun x hx => Or.inl hx⟩
  | succ m ih =>
    rcases hlast : st.getLast? with _ | c
    · rw [popMany, hlast]
      exact ih st dc
    · rw [popMany, hlast]
      have hcst : c ∈ st := List.mem_of_getLast?_eq_some hlast
      obtain ⟨ih1, ih2⟩ := ih st.dropLast (dc ++ [c])
      refine ⟨fun x hx => List.dropLast_subset st (ih1 x hx), fun x hx => ?_⟩
      rcases ih2 x hx with hx | hx
      · rcases List.mem_append.mp hx with hx | hx
        · exact Or.inl hx
        · have hxc : x = c := by simpa using hx
          exact Or.inr (hxc ▸ hcst)
      · exact Or.inr (List.dropLast_subset st hx)

/-- `summon_spirit` preserves the invariants. -/
theorem summon_preserves (g : GameState) (pid : Side) (n : String) (sl : Int)
    (hInv : Inv g) (hWF : WFState g) :
    Inv (summon_spirit g pid n sl).2.2 ∧ WFState (summon_spirit g pid n sl).2.2 := by
  unfold summon_spirit
  by_cases h1 : g.current_phase ≠ Phase.MEMORIZATION
  · rw [if_pos h1]; exact ⟨hInv, hWF⟩
  rw [if_neg h1]
  by_cases h2 : (g.player pid).placed_card_this_turn = true
  · rw [if_pos h2]; exact ⟨hInv, hWF⟩
  rw [if_neg h2]
  rcases hext : extractFirst (fun c => c.ctype == "spirit" && c.name == n) (g.player pid).hand
    with _ | ⟨sc, hand'⟩
  · simp only [hext]; exact ⟨hInv, hWF⟩
  simp only [hext]
  by_cases h3 : ¬(0 ≤ sl ∧ sl < ((g.player pid).spirit_slots.length : Int))
  · rw [if_pos h3]; exact ⟨hInv, hWF⟩
  rw [if_neg h3]
  by_cases h4 : ((g.player pid).spirit_slots.getD sl.toNat none).isSome = true
  · rw [if_pos h4]; exact ⟨hInv, hWF⟩
  rw [if_neg h4]
  obtain ⟨hmem, hsub⟩ := extractFirst_mem hext
  refine ⟨Inv_setPlayer_same_scalars _ _ _ hInv rfl rfl rfl, ?_⟩
  apply WFState_setPlayer _ _ _ hWF
  apply WFPlayer_of_sub (g.player pid) _ (hWF pid)
  intro c hc
  left
  simp only [PlayerState.allCards, List.mem_append] at hc
  rcases hc with (((hc | hc) | hc) | hc) | hc
  · exact mem_allCards_of_hand (hsub c hc)
  · exact mem_allCards_of_deck hc
  · exact mem_allCards_of_discard hc
  · rw [List.reduceOption_mem_iff] at hc
    rcases List.mem_or_eq_of_mem_set hc with hcs | hcs
    · exact mem_allCards_of_spirit hcs
    · exact mem_allCards_of_hand ((Option.some_inj.mp hcs) ▸ hmem)
  · rcases List.mem_flatten.mp hc with ⟨st, hst, hcst⟩
    exact mem_allCards_of_spell hst hcst

/-- `prepare_spell` preserves the invariants. -/
theorem prepare_preserves (g : GameState) (pid : Side) (n : String) (sl : Int)
    (hInv : Inv g) (hWF : WFState g) :
    Inv (prepare_spell g pid n sl).2.2 ∧ WFState (prepare_spell g pid n sl).2.2 := by
  unfold prepare_spell
  by_cases h1 : g.current_phase ≠ Phase.MEMORIZATION
  · rw [if_pos h1]; exact ⟨hInv, hWF⟩
  rw [if_neg h1]
  by_cases h2 : (g.player pid).placed_card_this_turn = true
  · rw [if_pos h2]; exact ⟨hInv, hWF⟩
  rw [if_neg h2]
  rcases hext : extractFirst (fun c => c.ctype == "spell" && c.name == n) (g.player pid).hand
    with _ | ⟨sc, hand'⟩
  · simp only [hext]; exact ⟨hInv, hWF⟩
  simp only [hext]
  by_cases h3 : ¬(0 ≤ sl ∧ sl < ((g.player pid).spell_slots.length : Int))
  · rw [if_pos h3]; exact ⟨hInv, hWF⟩
  rw [if_neg h3]
  push_neg at h3
  by_cases h4 : 3 ≤ ((g.player pid).spell_slots.getD sl.toNat []).length
  · rw [if_pos h4]; exact ⟨hInv, hWF⟩
  rw [if_neg h4]
  by_cases h5 : (g.player pid).spell_slots.getD sl.toNat [] ≠ [] ∧
      ((g.player pid).spell_slots.getD sl.toNat []).headI.name ≠ n
  · rw [if_pos h5]; exact ⟨hInv, hWF⟩
  rw [if_neg h5]
  obtain ⟨hmem, hsub⟩ := extractFirst_mem hext
  have hjlt : sl.toNat < (g.player pid).spell_slots.length := by omega
  refine ⟨Inv_setPlayer_same_scalars _ _ _ hInv rfl rfl rfl, ?_⟩
  apply WFState_setPlayer _ _ _ hWF
  apply WFPlayer_of_sub (g.player pid) _ (hWF pid)
  intro c hc
  left
  simp only [PlayerState.allCards, List.mem_append] at hc
  rcases hc with (((hc | hc) | hc) | hc) | hc
  · exact mem_allCards_of_hand (hsub c hc)
  · exact mem_allCards_of_deck hc
  · exact mem_allCards_of_discard hc
  · exact mem_allCards_of_spirit (List.reduceOption_mem_iff.mp hc)
  · rcases List.mem_flatten.mp hc with ⟨st, hst, hcst⟩
    rcases List.mem_or_eq_of_mem_set hst with hst | hst
    · exact mem_allCards_of_spell hst hcst
    · subst hst
      rcases List.mem_append.mp hcst with hcst | hcst
      · exact mem_allCards_of_spell (getD_mem hjlt) hcst
      · exact mem_allCards_of_hand ((by simpa using hcst : c = sc) ▸ hmem)

/-- `replace_spell` preserves the invariants. -/
theorem replace_preserves (g : GameState) (pid : Side) (n : String) (sl : Int)
    (hInv : Inv g) (hWF : WFState g) :
    Inv (replace_spell g pid n sl).2.2 ∧ WFState (replace_spell g pid n sl).2.2 := by
  unfold replace_spell
  by_cases h1 : g.current_phase ≠ Phase.MEMORIZATION
  · rw [if_pos h1]; exact ⟨hInv, hWF⟩
  rw [if_neg h1]
  by_cases h2 : (g.player pid).placed_card_this_turn = true
  · rw [if_pos h2]; exact ⟨hInv, hWF⟩
  rw [if_neg h2]
  rcases hext : extractFirst (fun c => c.ctype == "spell" && c.name == n) (g.player pid).hand
    with _ | ⟨sc, hand'⟩
  · simp only [hext]; exact ⟨hInv, hWF⟩
  simp only [hext]
  by_cases h3 : ¬(0 ≤ sl ∧ sl < ((g.player pid).spell_slots.length : Int))
  · rw [if_pos h3]; exact ⟨hInv, hWF⟩
  rw [if_neg h3]
  push_neg at h3
  obtain ⟨hmem, hsub⟩ := extractFirst_mem hext
  have hjlt : sl.toNat < (g.player pid).spell_slots.length := by omega
  refine ⟨Inv_setPlayer_same_scalars _ _ _ hInv rfl rfl rfl, ?_⟩
  apply WFState_setPlayer _ _ _ hWF
  apply WFPlayer_of_sub (g.player pid) _ (hWF pid)
  intro c hc
  left
  simp only [PlayerState.allCards, List.mem_append] at hc
  rcases hc with (((hc | hc) | hc | hc) | hc) | hc
  · exact mem_allCards_of_hand (hsub c hc)
  · exact mem_allCards_of_deck hc
  · exact mem_allCards_of_discard hc
  · exact mem_allCards_of_spell (getD_mem hjlt) hc
  · exact mem_allCards_of_spirit (List.reduceOption_mem_iff.mp hc)
  · rcases List.mem_flatten.mp hc with ⟨st, hst, hcst⟩
    rcases List.mem_or_eq_of_mem_set hst with hst | hst
    · exact mem_allCards_of_spell hst hcst
    · subst hst
      exact mem_allCards_of_hand ((by simpa using hcst : c = sc) ▸ hmem)

/-- `use_wizard_ability` preserves the invariants. -/
theorem ability_preserves (g : GameState) (pid : Side)
    (hInv : Inv g) (hWF : WFState g) :
    Inv (use_wizard_ability g pid).2.2 ∧ WFState (use_wizard_ability g pid).2.2 := by
  unfold use_wizard_ability
  by_cases h1 : g.current_phase ≠ Phase.MEMORIZATION
  · rw [if_pos h1]; exact ⟨hInv, hWF⟩
  rw [if_neg h1]
  by_cases h2 : (g.player pid).placed_card_this_turn = true
  · rw [if_pos h2]; exact ⟨hInv, hWF⟩
  rw [if_neg h2]
  by_cases h3 : (g.player pid).wizard_ability_used = true
  · rw [if_pos h3]; exact ⟨hInv, hWF⟩
  rw [if_neg h3]
  constructor
  · intro s
    rw [GameState.player_setPlayer, GameState.setPlayer_over, GameState.setPlayer_winner]
    split
    · rename_i hs
      subst hs
      obtain ⟨ha0, ha16, hm, hh0, hh20, hwin⟩ := hInv s
      refine ⟨?_, ?_, hm, hh0, hh20, hwin⟩
      · exact le_min (by omega) (by omega)
      · rw [hm]
        exact min_le_right _ _
    · exact hInv s
  · apply WFState_setPlayer _ _ _ hWF
    exact hWF pid

/-- Two sides: anyone is the given side or its opponent. -/
theorem Side.eq_or_eq_other (s t : Side) : s = t ∨ s = t.other := by
  cases s <;> cases t <;> simp [Side.other]

/-- `activate_spell` with a nonnegative requested copy count preserves the
invariants. -/
theorem activate_preserves (g : GameState) (pid : Side) (sl cp : Int) (hcp : 0 ≤ cp)
    (hInv : Inv g) (hWF : WFState g) :
    Inv (activate_spell g pid sl cp).2.2 ∧ WFState (activate_spell g pid sl cp).2.2 := by
  unfold activate_spell
  by_cases h1 : g.current_phase ≠ Phase.INVOCATION
  · rw [if_pos h1]; exact ⟨hInv, hWF⟩
  rw [if_neg h1]
  by_cases h2 : ¬(0 ≤ sl ∧ sl < ((g.player pid).spell_slots.length : Int))
  · rw [if_pos h2]; exact ⟨hInv, hWF⟩
  rw [if_neg h2]
  push_neg at h2
  rcases hstk : (g.player pid).spell_slots.getD sl.toNat [] with _ | ⟨spell, rest⟩
  · simp only [hstk]; exact ⟨hInv, hWF⟩
  simp only [hstk]
  have hjlt : sl.toNat < (g.player pid).spell_slots.length := by omega
  have hstmem : (spell :: rest) ∈ (g.player pid).spell_slots := hstk ▸ getD_mem hjlt
  have hwf_spell : WFCard spell :=
    hWF pid spell (mem_allCards_of_spell hstmem (List.mem_cons_self _ _))
  have hcub : 0 ≤ (if ((spell :: rest).length : Int) < cp then ((spell :: rest).length : Int)
      else cp) ∧
      (if ((spell :: rest).length : Int) < cp then ((spell :: rest).length : Int) else cp) ≤
        ((spell :: rest).length : Int) := by
    constructor <;> (split <;> omega)
  generalize hgen : (if ((spell :: rest).length : Int) < cp then ((spell :: rest).length : Int)
      else cp) = cu at hcub ⊢
  obtain ⟨hcu0, hcule⟩ := hcub
  have htc0 : 0 ≤ spell.activation_cost * cu := mul_nonneg hwf_spell.1 hcu0
  by_cases h3 : (g.player pid).aether < spell.activation_cost * cu
  · rw [if_pos h3]; exact ⟨hInv, hWF⟩
  rw [if_neg h3]
  obtain ⟨hpop1, hpop2⟩ := popMany_subsets cu.toNat (spell :: rest) (g.player pid).discard
  have hWFplayer : ∀ (newhp : Int), WFPlayer
      { g.player pid with
        aether := (g.player pid).aether - spell.activation_cost * cu
        wizard_hp := newhp
        spell_slots := (g.player pid).spell_slots.set sl.toNat
          (popMany cu.toNat (spell :: rest) (g.player pid).discard).1
        discard := (popMany cu.toNat (spell :: rest) (g.player pid).discard).2 } := by
    intro newhp
    apply WFPlayer_of_sub (g.player pid) _ (hWF pid)
    intro c hc
    left
    simp only [PlayerState.allCards, List.mem_append] at hc
    rcases hc with (((hc | hc) | hc) | hc) | hc
    · exact mem_allCards_of_hand hc
    · exact mem_allCards_of_deck hc
    · rcases hpop2 c hc with hc | hc
      · exact mem_allCards_of_discard hc
      · exact mem_allCards_of_spell hstmem hc
    · exact mem_allCards_of_spirit (List.reduceOption_mem_iff.mp hc)
    · rcases List.mem_flatten.mp hc with ⟨st, hst, hcst⟩
      rcases List.mem_or_eq_of_mem_set hst with hst | hst
      · exact mem_allCards_of_spell hst hcst
      · exact mem_allCards_of_spell hstmem (hpop1 c (hst ▸ hcst))
  by_cases h4 : spell.effects.aoe_damage = true ∧ spell.effects.target = some "enemy_spirits"
  · rw [if_pos h4]
    constructor
    · intro s
      simp only [GameState.setPlayer_over, GameState.setPlayer_winner]
      rcases Side.eq_or_eq_other s pid with rfl | rfl
      · rw [GameState.player_setPlayer_other _ _ _ _ (Side.ne_other s),
          GameState.player_setPlayer_same]
        obtain ⟨a0, a16, m16, h0, h20, hwin⟩ := hInv s
        refine ⟨?_, ?_, m16, h0, h20, hwin⟩
        · show 0 ≤ (g.player s).aether - spell.activation_cost * cu
          omega
        · show (g.player s).aether - spell.activation_cost * cu ≤ 16
          omega
      · rw [GameState.player_setPlayer_same]
        obtain ⟨a0, a16, m16, h0, h20, hwin⟩ := hInv pid.other
        exact ⟨a0, a16, m16, h0, h20, hwin⟩
    · apply WFState_setPlayer _ _ _ (WFState_setPlayer _ _ _ hWF (hWFplayer _))
      apply WFPlayer_of_sub (g.player pid.other) _ (hWF pid.other)
      intro c hc
      simp only [PlayerState.allCards, List.mem_append] at hc
      rcases hc with (((hc | hc) | hc) | hc) | hc
      · exact Or.inl (mem_allCards_of_hand hc)
      · exact Or.inl (mem_allCards_of_deck hc)
      · rcases hc with hc | hc
        · exact Or.inl (mem_allCards_of_discard hc)
        · right
          rcases List.mem_filterMap.mp hc with ⟨o, ho, hcas⟩
          rcases o with _ | sp
          · simp [aoeCasualty] at hcas
          · have hwf_sp : WFCard sp :=
              hWF pid.other sp (mem_allCards_of_spirit ho)
            simp only [aoeCasualty] at hcas
            split at hcas
            · cases Option.some_inj.mp hcas
              exact hwf_sp
            · simp at hcas
      · right
        rw [List.reduceOption_mem_iff] at hc
        rcases List.mem_map.mp hc with ⟨o, ho, hsur⟩
        rcases o with _ | sp
        · simp [aoeSurvivor] at hsur
        · have hwf_sp : WFCard sp :=
            hWF pid.other sp (mem_allCards_of_spirit ho)
          simp only [aoeSurvivor] at hsur
          split at hsur
          · simp at hsur
          · cases Option.some_inj.mp hsur
            exact hwf_sp
      · rcases List.mem_flatten.mp hc with ⟨st, hst, hcst⟩
        exact Or.inl (mem_allCards_of_spell hst hcst)
  · rw [if_neg h4]
    by_cases h5 : spell.effects.healWizardTruthy = true
    · rw [if_pos h5]
      have hheal0 : 0 ≤ spell.effects.heal_wizard.getD 0 * cu :=
        mul_nonneg hwf_spell.2 hcu0
      constructor
      · intro s
        simp only [GameState.setPlayer_over, GameState.setPlayer_winner]
        rcases Side.eq_or_eq_other s pid with rfl | rfl
        · rw [GameState.player_setPlayer_same]
          obtain ⟨a0, a16, m16, h0, h20, hwin⟩ := hInv s
          refine ⟨?_, ?_, m16, ?_, ?_, ?_⟩
          · show 0 ≤ (g.player s).aether - spell.activation_cost * cu
            omega
          · show (g.player s).aether - spell.activation_cost * cu ≤ 16
            omega
          · exact le_min (by omega) (by omega)
          · exact min_le_left _ _
          · intro hz
            have hz2 : min 20 ((g.player s).wizard_hp +
                spell.effects.heal_wizard.getD 0 * cu) = 0 := hz
            rcases le_or_lt ((g.player s).wizard_hp +
                spell.effects.heal_wizard.getD 0 * cu) 20 with hle | hgt
            · rw [min_eq_right hle] at hz2
              exact hwin (by omega)
            · rw [min_eq_left (by omega)] at hz2
              omega
        · rw [GameState.player_setPlayer_other _ _ _ _ (Side.other_ne pid)]
          exact hInv pid.other
      · exact WFState_setPlayer _ _ _ hWF (hWFplayer _)
    · rw [if_neg h5]
      exact ⟨hInv, hWF⟩

/-- `attack_with_spirit`, called while the game is not over, preserves the
invariants. -/
theorem attack_preserves (g : GameState) (pid : Side) (sl : Int) (tt : String) (ti : Int)
    (hover : g.game_over = false) (hInv : Inv g) (hWF : WFState g) :
    Inv (attack_with_spirit g pid sl tt ti).2.2 ∧
      WFState (attack_with_spirit g pid sl tt ti).2.2 := by
  unfold attack_with_spirit
  by_cases h1 : g.current_phase ≠ Phase.INVOCATION
  · rw [if_pos h1]; exact ⟨hInv, hWF⟩
  rw [if_neg h1]
  by_cases h2 : ¬(0 ≤ sl ∧ sl < ((g.player pid).spirit_slots.length : Int))
  · rw [if_pos h2]; exact ⟨hInv, hWF⟩
  rw [if_neg h2]
  push_neg at h2
  rcases hsp : (g.player pid).spirit_slots.getD sl.toNat none with _ | spirit
  · simp only [hsp]; exact ⟨hInv, hWF⟩
  simp only [hsp]
  have hjlt : sl.toNat < (g.player pid).spirit_slots.length := by omega
  have hspmem : some spirit ∈ (g.player pid).spirit_slots := hsp ▸ getD_mem hjlt
  have hwf_spirit : WFCard spirit := hWF pid spirit (mem_allCards_of_spirit hspmem)
  by_cases h3 : (g.player pid).aether < spirit.activation_cost
  · rw [if_pos h3]; exact ⟨hInv, hWF⟩
  rw [if_neg h3]
  have haf : spirit.activation_cost ≤ (g.player pid).aether := not_lt.mp h3
  have hcost0 : 0 ≤ spirit.activation_cost := hwf_spirit.1
  have hWFp : WFPlayer
      { g.player pid with aether := (g.player pid).aether - spirit.activation_cost } :=
    hWF pid
  by_cases h4 : (tt == "wizard") = true
  · rw [if_pos h4]
    by_cases h5 : ((g.player pid.other).spirit_slots.any Option.isSome &&
        !spirit.effects.direct_attack) = true
    · rw [if_pos h5]; exact ⟨hInv, hWF⟩
    rw [if_neg h5]
    by_cases h6 : (g.player pid.other).wizard_hp - max 0 spirit.power ≤ 0
    · rw [if_pos h6]
      constructor
      · intro s
        rcases Side.eq_or_eq_other s pid with rfl | rfl
        · rw [GameState.player_setPlayer_other _ _ _ _ (Side.ne_other s),
            GameState.player_setPlayer_same]
          obtain ⟨a0, a16, m16, h0, h20, hwin⟩ := hInv s
          have hnz : (g.player s).wizard_hp ≠ 0 := by
            intro hz
            have hcontra := (hwin hz).1
            rw [hover] at hcontra
            exact absurd hcontra (by simp)
          refine ⟨?_, ?_, m16, h0, h20, ?_⟩
          · show 0 ≤ (g.player s).aether - spirit.activation_cost
            omega
          · show (g.player s).aether - spirit.activation_cost ≤ 16
            omega
          · intro hz
            exact absurd hz hnz
        · rw [GameState.player_setPlayer_same]
          obtain ⟨a0, a16, m16, _h0, _h20, _hwin⟩ := hInv pid.other
          refine ⟨a0, a16, m16, le_refl _, ?_, fun _ => ⟨?_, ?_⟩⟩
          · show (0 : Int) ≤ 20
            decide
          · simp
          · simp
      · have hbase : WFState { g with game_over := true, winner := some pid } := by
          intro s
          rw [GameState.player_over_winner]
          exact hWF s
        exact WFState_setPlayer _ _ _ (WFState_setPlayer _ _ _ hbase hWFp) (hWF pid.other)
    · rw [if_neg h6]
      constructor
      · intro s
        simp only [GameState.setPlayer_over, GameState.setPlayer_winner]
        rcases Side.eq_or_eq_other s pid with rfl | rfl
        · rw [GameState.player_setPlayer_other _ _ _ _ (Side.ne_other s),
            GameState.player_setPlayer_same]
          obtain ⟨a0, a16, m16, h0, h20, hwin⟩ := hInv s
          refine ⟨?_, ?_, m16, h0, h20, hwin⟩
          · show 0 ≤ (g.player s).aether - spirit.activation_cost
            omega
          · show (g.player s).aether - spirit.activation_cost ≤ 16
            omega
        · rw [GameState.player_setPlayer_same]
          obtain ⟨a0, a16, m16, h0, h20, hwin⟩ := hInv pid.other
          refine ⟨a0, a16, m16, ?_, ?_, ?_⟩
          · show 0 ≤ (g.player pid.other).wizard_hp - max 0 spirit.power
            omega
          · show (g.player pid.other).wizard_hp - max 0 spirit.power ≤ 20
            have hm0 : 0 ≤ max 0 spirit.power := le_max_left _ _
            omega
          · intro hz
            have hz2 : (g.player pid.other).wizard_hp - max 0 spirit.power = 0 := hz
            exact absurd hz2 (by omega)
      · exact WFState_setPlayer _ _ _ (WFState_setPlayer _ _ _ hWF hWFp) (hWF pid.other)
  · rw [if_neg h4]
    by_cases h7 : (tt == "spirit") = true
    · rw [if_pos h7]
      by_cases h8 : ¬(0 ≤ ti ∧ ti < ((g.player pid.other).spirit_slots.length : Int))
      · rw [if_pos h8]; exact ⟨hInv, hWF⟩
      rw [if_neg h8]
      push_neg at h8
      rcases htg : (g.player pid.other).spirit_slots.getD ti.toNat none with _ | target
      · simp only [htg]; exact ⟨hInv, hWF⟩
      simp only [htg]
      have htlt : ti.toNat < (g.player pid.other).spirit_slots.length := by omega
      have htgmem : some target ∈ (g.player pid.other).spirit_slots := htg ▸ getD_mem htlt
      have hwf_tg : WFCard target := hWF pid.other target (mem_allCards_of_spirit htgmem)
      constructor
      · intro s
        simp only [GameState.setPlayer_over, GameState.setPlayer_winner]
        rcases Side.eq_or_eq_other s pid with rfl | rfl
        · rw [GameState.player_setPlayer_other _ _ _ _ (Side.ne_other s),
            GameState.player_setPlayer_same]
          obtain ⟨a0, a16, m16, h0, h20, hwin⟩ := hInv s
          refine ⟨?_, ?_, m16, h0, h20, hwin⟩
          · show 0 ≤ (g.player s).aether - spirit.activation_cost
            omega
          · show (g.player s).aether - spirit.activation_cost ≤ 16
            omega
        · rw [GameState.player_setPlayer_same]
          obtain ⟨a0, a16, m16, h0, h20, hwin⟩ := hInv pid.other
          split
          · exact ⟨a0, a16, m16, h0, h20, hwin⟩
          · exact ⟨a0, a16, m16, h0, h20, hwin⟩
      · apply WFState_setPlayer _ _ _ (WFState_setPlayer _ _ _ hWF hWFp)
        split
        · apply WFPlayer_of_sub (g.player pid.other) _ (hWF pid.other)
          intro c hc
          simp only [PlayerState.allCards, List.mem_append] at hc
          rcases hc with (((hc | hc) | hc | hc) | hc) | hc
          · exact Or.inl (mem_allCards_of_hand hc)
          · exact Or.inl (mem_allCards_of_deck hc)
          · exact Or.inl (mem_allCards_of_discard hc)
          · right
            have hct : c = { target with
                current_hp := target.current_hp - max 0 (spirit.power - target.defense)
                defense := match spirit.effects.reduce_defense with
                  | some r => if r != 0 && !target.effects.prevent_defense_reduction then
                      max 0 (target.defense - r) else target.defense
                  | none => target.defense } := by
              simpa using hc
            rw [hct]
            exact hwf_tg
          · rw [List.reduceOption_mem_iff] at hc
            rcases List.mem_or_eq_of_mem_set hc with hcs | hcs
            · exact Or.inl (mem_allCards_of_spirit hcs)
            · simp at hcs
          · rcases List.mem_flatten.mp hc with ⟨st, hst, hcst⟩
            exact Or.inl (mem_allCards_of_spell hst hcst)
        · apply WFPlayer_of_sub (g.player pid.other) _ (hWF pid.other)
          intro c hc
          simp only [PlayerState.allCards, List.mem_append] at hc
          rcases hc with (((hc | hc) | hc) | hc) | hc
          · exact Or.inl (mem_allCards_of_hand hc)
          · exact Or.inl (mem_allCards_of_deck hc)
          · exact Or.inl (mem_allCards_of_discard hc)
          · rw [List.reduceOption_mem_iff] at hc
            rcases List.mem_or_eq_of_mem_set hc with hcs | hcs
            · exact Or.inl (mem_allCards_of_spirit hcs)
            · right
              have hct : c = { target with
                  current_hp := target.current_hp - max 0 (spirit.power - target.defense)
                  defense := match spirit.effects.reduce_defense with
                    | some r => if r != 0 && !target.effects.prevent_defense_reduction then
                        max 0 (target.defense - r) else target.defense
                    | none => target.defense } := by
                simpa using hcs
              rw [hct]
              exact hwf_tg
          · rcases List.mem_flatten.mp hc with ⟨st, hst, hcst⟩
            exact Or.inl (mem_allCards_of_spell hst hcst)
    · rw [if_neg h7]
      exact ⟨hInv, hWF⟩

/-- Phase advancement preserves the invariants. -/
theorem nextPhase_preserves (g g' : GameState) (h : NextPhaseRel g g')
    (hInv : Inv g) (hWF : WFState g) : Inv g' ∧ WFState g' := by
  cases h with
  | over hov => exact ⟨hInv, hWF⟩
  | advance hov hp =>
    constructor
    · intro s
      have he : ({ g with current_phase := g.current_phase.succ } : GameState).player s =
          g.player s := by cases s <;> rfl
      rw [he]
      exact hInv s
    · intro s
      have he : ({ g with current_phase := g.current_phase.succ } : GameState).player s =
          g.player s := by cases s <;> rfl
      rw [he]
      exact hWF s
  | wrap q hov hp hup =>
    obtain ⟨qd, hdraw, rfl⟩ := hup
    have hqa : qd.aether = (g.player g.current_player.other).aether := by cases hdraw <;> rfl
    have hqm : qd.max_aether = (g.player g.current_player.other).max_aether := by
      cases hdraw <;> rfl
    have hqh : qd.wizard_hp = (g.player g.current_player.other).wizard_hp := by
      cases hdraw <;> rfl
    constructor
    · intro s
      simp only [GameState.setPlayer_over, GameState.setPlayer_winner]
      by_cases hs : s = g.current_player.other
      · rw [hs, GameState.player_setPlayer_same]
        obtain ⟨a0, a16, m16, h0, h20, hwin⟩ := hInv g.current_player.other
        refine ⟨?_, ?_, ?_, ?_, ?_, ?_⟩
        · show 0 ≤ min (qd.aether + 2) qd.max_aether
          rw [hqa, hqm, m16]
          exact le_min (by omega) (by omega)
        · show min (qd.aether + 2) qd.max_aether ≤ 16
          rw [hqm, m16]
          exact min_le_right _ _
        · show qd.max_aether = 16
          rw [hqm]
          exact m16
        · show 0 ≤ qd.wizard_hp
          rw [hqh]
          exact h0
        · show qd.wizard_hp ≤ 20
          rw [hqh]
          exact h20
        · intro hz
          have hz2 : qd.wizard_hp = 0 := hz
          rw [hqh] at hz2
          have := hwin hz2
          rw [hov] at this
          exact absurd this.1 (by simp)
      · rw [GameState.player_setPlayer_other _ _ _ _ hs, GameState.player_scalars]
        exact hInv s
    · intro s
      by_cases hs : s = g.current_player.other
      · rw [hs, GameState.player_setPlayer_same]
        show WFPlayer qd
        cases hdraw with
        | fromDeck c d hdc =>
          apply WFPlayer_of_sub (g.player g.current_player.other) _ (hWF _)
          intro x hx
          left
          simp only [PlayerState.allCards, List.mem_append] at hx
          rcases hx with ((((hx | hx) | hx) | hx) | hx) | hx
          · exact mem_allCards_of_hand hx
          · have hxc : x = c := by simpa using hx
            refine mem_allCards_of_deck ?_
            rw [hdc, hxc]
            exact List.mem_append_right _ (by simp)
          · refine mem_allCards_of_deck ?_
            rw [hdc]
            exact List.mem_append_left _ hx
          · exact mem_allCards_of_discard hx
          · exact mem_allCards_of_spirit (List.reduceOption_mem_iff.mp hx)
          · rcases List.mem_flatten.mp hx with ⟨st, hst, hxst⟩
            exact mem_allCards_of_spell hst hxst
        | reshuffle c d hdk hperm =>
          apply WFPlayer_of_sub (g.player g.current_player.other) _ (hWF _)
          intro x hx
          left
          simp only [PlayerState.allCards, List.mem_append, List.not_mem_nil, or_false] at hx
          rcases hx with (((hx | hx) | hx) | hx) | hx
          · exact mem_allCards_of_hand hx
          · have hxc : x = c := by simpa using hx
            refine mem_allCards_of_discard (hperm.subset ?_)
            rw [hxc]
            exact List.mem_append_right _ (by simp)
          · exact mem_allCards_of_discard (hperm.subset (List.mem_append_left _ hx))
          · exact mem_allCards_of_spirit (List.reduceOption_mem_iff.mp hx)
          · rcases List.mem_flatten.mp hx with ⟨st, hst, hxst⟩
            exact mem_allCards_of_spell hst hxst
        | bothEmpty h1 h2 => exact hWF _
      · rw [GameState.player_setPlayer_other _ _ _ _ hs, GameState.player_scalars]
        exact hWF s

/-- `drawLoop` keeps the scalar fields and only moves cards from deck to hand. -/
theorem drawLoop_fields (n : Nat) (p : PlayerState) :
    (drawLoop n p).aether = p.aether ∧ (drawLoop n p).max_aether = p.max_aether ∧
    (drawLoop n p).wizard_hp = p.wizard_hp ∧ (drawLoop n p).discard = p.discard ∧
    (drawLoop n p).spirit_slots = p.spirit_slots ∧
    (drawLoop n p).spell_slots = p.spell_slots ∧
    (∀ x, x ∈ (drawLoop n p).hand ∨ x ∈ (drawLoop n p).deck → x ∈ p.hand ∨ x ∈ p.deck) := by
  induction n generalizing p with
  | zero => exact ⟨rfl, rfl, rfl, rfl, rfl, rfl, fun x hx => hx⟩
  | succ m ih =>
    rcases hlast : p.deck.getLast? with _ | c
    · rw [drawLoop, hlast]
      exact ih p
    · rw [drawLoop, hlast]
      obtain ⟨f1, f2, f3, f4, f5, f6, f7⟩ :=
        ih { p with deck := p.deck.dropLast, hand := p.hand ++ [c] }
      refine ⟨f1, f2, f3, f4, f5, f6, fun x hx => ?_⟩
      rcases f7 x hx with hx | hx
      · rcases List.mem_append.mp hx with hx | hx
        · exact Or.inl hx
        · have hxc : x = c := by simpa using hx
          exact Or.inr (hxc ▸ List.mem_of_getLast?_eq_some hlast)
      · exact Or.inr (List.dropLast_subset _ hx)

/-- A freshly dealt player has the starting scalars and only deck cards. -/
theorem initPlayer_inv (d : List Card) (hwf : ∀ c ∈ d, WFCard c) :
    (initPlayer d).aether = 0 ∧ (initPlayer d).max_aether = 16 ∧
    (initPlayer d).wizard_hp = 20 ∧ WFPlayer (initPlayer d) := by
  unfold initPlayer
  split
  · exact ⟨rfl, rfl, rfl, fun c hc => by simp [PlayerState.allCards, freshPlayer] at hc⟩
  · obtain ⟨f1, f2, f3, f4, f5, f6, f7⟩ :=
      drawLoop_fields (min 7 d.length) { freshPlayer with deck := d }
    refine ⟨f1, f2, f3, ?_⟩
    intro c hc
    simp only [PlayerState.allCards, List.mem_append] at hc
    rcases hc with (((hc | hc) | hc) | hc) | hc
    · rcases f7 c (Or.inl hc) with hx | hx
      · simp [freshPlayer] at hx
      · exact hwf c hx
    · rcases f7 c (Or.inr hc) with hx | hx
      · simp [freshPlayer] at hx
      · exact hwf c hx
    · rw [f4] at hc
      simp [freshPlayer] at hc
    · rw [f5] at hc
      simp [freshPlayer] at hc
    · rw [f6] at hc
      simp [freshPlayer] at hc

/-- Match construction from well-formed decks establishes the invariants. -/
theorem initRel_establishes (deck1 deck2 : List Card) (g : GameState)
    (h : InitRel deck1 deck2 g)
    (hwf1 : ∀ c ∈ deck1, WFCard c) (hwf2 : ∀ c ∈ deck2, WFCard c) :
    Inv g ∧ WFState g := by
  obtain ⟨d1, d2, hp1, hp2, rfl⟩ := h
  obtain ⟨i1a, i1m, i1h, i1w⟩ := initPlayer_inv d1 fun c hc => hwf1 c (hp1.subset hc)
  obtain ⟨i2a, i2m, i2h, i2w⟩ := initPlayer_inv d2 fun c hc => hwf2 c (hp2.subset hc)
  constructor
  · intro s
    cases s
    · refine ⟨?_, ?_, ?_, ?_, ?_, ?_⟩
      · show 0 ≤ (initPlayer d1).aether
        omega
      · show (initPlayer d1).aether ≤ 16
        omega
      · show (initPlayer d1).max_aether = 16
        exact i1m
      · show 0 ≤ (initPlayer d1).wizard_hp
        omega
      · show (initPlayer d1).wizard_hp ≤ 20
        omega
      · intro hz
        have hz2 : (initPlayer d1).wizard_hp = 0 := hz
        exact absurd hz2 (by omega)
    · refine ⟨?_, ?_, ?_, ?_, ?_, ?_⟩
      · show 0 ≤ (initPlayer d2).aether
        omega
      · show (initPlayer d2).aether ≤ 16
        omega
      · show (initPlayer d2).max_aether = 16
        exact i2m
      · show 0 ≤ (initPlayer d2).wizard_hp
        omega
      · show (initPlayer d2).wizard_hp ≤ 20
        omega
      · intro hz
        have hz2 : (initPlayer d2).wizard_hp = 0 := hz
        exact absurd hz2 (by omega)
  · intro s
    cases s
    · exact i1w
    · exact i2w

/-- Argument sanity for an action: a requested copies count is nonnegative. -/
def ActOk : Act → Prop
  | .activate _ _ c => 0 ≤ c
  | _ => True

/-- A transition of the match as restricted by the amended claim: an action
with a nonnegative copies count invoked while the game is not over, or any
phase advance. -/
def GoodStep (g g' : GameState) : Prop :=
  (∃ a : Act, ActOk a ∧ g.game_over = false ∧ g' = (applyAct a g).2.2) ∨ NextPhaseRel g g'

/-- One restricted transition preserves the invariants. -/
theorem goodStep_preserves (g g' : GameState) (h : GoodStep g g')
    (hInv : Inv g) (hWF : WFState g) : Inv g' ∧ WFState g' := by
  rcases h with ⟨a, hok, hov, rfl⟩ | hph
  · cases a with
    | summon p n sl => exact summon_preserves g p n sl hInv hWF
    | prepare p n sl => exact prepare_preserves g p n sl hInv hWF
    | replace p n sl => exact replace_preserves g p n sl hInv hWF
    | ability p => exact ability_preserves g p hInv hWF
    | activate p sl c => exact activate_preserves g p sl c hok hInv hWF
    | attack p sl tt ti => exact attack_preserves g p sl tt ti hov hInv hWF
  · exact nextPhase_preserves _ _ hph hInv hWF

/-- C1 (amended): starting from a match built from decks of catalog-well-formed
cards (nonnegative activation costs and heal amounts), along any sequence of
phase advances and of Action Resolver calls made while `gameOver` is false with
nonnegative requested copies counts, every reachable state satisfies: for each
side, `0 ≤ aether ≤ maxAether = 16`, `0 ≤ wizardHealth ≤ 20`, and
`wizardHealth = 0` implies `gameOver = true` with the winner being the other
side. -/
theorem c1_invariants (deck1 deck2 : List Card) (g0 g : GameState)
    (hwf1 : ∀ c ∈ deck1, WFCard c) (hwf2 : ∀ c ∈ deck2, WFCard c)
    (hinit : InitRel deck1 deck2 g0)
    (hreach : Relation.ReflTransGen GoodStep g0 g) :
    Inv g := by
  have hmain : Inv g ∧ WFState g := by
    induction hreach with
    | refl => exact initRel_establishes _ _ _ hinit hwf1 hwf2
    | tail hrest hlast ih => exact goodStep_preserves _ _ hlast ih.1 ih.2
  exact hmain.1

/-- The empty-deck initial state. -/
def g0Empty : GameState :=
  { players1 := initPlayer []
    players2 := initPlayer []
    current_player := Side.p1
    current_phase := Phase.ATTAINMENT
    turn_count := 1
    game_over := false
    winner := none }

/-- Closed instance of `c1_invariants` at the freshly constructed empty-deck
match. -/
theorem c1_invariants_witness : InitRel [] [] g0Empty ∧ Inv g0Empty :=
  ⟨⟨[], [], List.Perm.refl _, List.Perm.refl _, rfl⟩,
    c1_invariants [] [] g0Empty g0Empty (by simp) (by simp)
      ⟨[], [], List.Perm.refl _, List.Perm.refl _, rfl⟩ Relation.ReflTransGen.refl⟩

/-- The initial state of the counterexample run: p1's deck is a single
Healing Wave, p2's deck is empty. -/
def cexG0 : GameState :=
  { players1 := initPlayer [healCard]
    players2 := initPlayer []
    current_player := Side.p1
    current_phase := Phase.ATTAINMENT
    turn_count := 1
    game_over := false
    winner := none }

/-- After one phase advance: Memorization. -/
def cexG1 : GameState := { cexG0 with current_phase := cexG0.current_phase.succ }

/-- After p1 prepares the Healing Wave into spell slot 0. -/
def cexG2 : GameState := actState (Act.prepare Side.p1 "Healing Wave" 0) cexG1

/-- After another phase advance: Invocation. -/
def cexG3 : GameState := { cexG2 with current_phase := cexG2.current_phase.succ }

/-- After p1 activates the stack with a requested copies count of −25. -/
def cexG4 : GameState := actState (Act.activate Side.p1 0 (-25)) cexG3

/-- C1, counterexample: a reachable call sequence (all calls made while the
game is running) in which `activate_spell` is passed the requested copies
count −25 — an argument the public API accepts — drives p1's wizard health to
−5 and p1's aether to 50, violating both claimed bounds. -/
theorem c1_counterexample :
    InitRel [healCard] [] cexG0 ∧
    Relation.ReflTransGen Step cexG0 cexG4 ∧
    (cexG4.player Side.p1).wizard_hp = -5 ∧
    ¬(0 ≤ (cexG4.player Side.p1).wizard_hp) ∧
    (cexG4.player Side.p1).aether = 50 ∧
    ¬((cexG4.player Side.p1).aether ≤ 16) := by
  refine ⟨⟨[healCard], [], List.Perm.refl _, List.Perm.refl _, rfl⟩, ?_,
    by decide, by decide, by decide, by decide⟩
  have s1 : Step cexG0 cexG1 :=
    Step.phase (NextPhaseRel.advance cexG0 (by decide) (by decide))
  have s2 : Step cexG1 cexG2 := Step.act (Act.prepare Side.p1 "Healing Wave" 0) cexG1
  have s3 : Step cexG2 cexG3 :=
    Step.phase (NextPhaseRel.advance cexG2 (by decide) (by decide))
  have s4 : Step cexG3 cexG4 := Step.act (Act.activate Side.p1 0 (-25)) cexG3
  exact ((((Relation.ReflTransGen.refl).tail s1).tail s2).tail s3).tail s4

/-! ## C9: the AI turn driver (discord_ai_controller.execute_ai_turn) -/

/-- The move dictionaries `get_move` can return.  The driver is verified for an
arbitrary policy producing these moves, covering the heuristic policy of the
source (whose scoring uses floats but always returns one of these shapes). -/
inductive Move where
  | advance
  | summonM (name : String) (slot : Int)
  | prepareM (name : String) (slot : Int)
  | replaceM (name : String) (slot : Int)
  | activateM (slot : Int) (copies : Int)
  | attackM (spiritSlot : Int) (targetType : String) (targetIndex : Int)
deriving DecidableEq, Repr

/-- The action the driver performs for an attack move: the wizard branch passes
no target index (the engine ignores it), the other branch passes the literal
"spirit". -/
def attackActOf (bot : Side) (sl : Int) (tt : String) (ti : Int) : Act :=
  if tt == "wizard" then Act.attack bot sl "wizard" 0 else Act.attack bot sl "spirit" ti

/-- The `while` loop of `execute_ai_turn`, as a big-step relation from the loop
entry (with the current `action_count`) to the state at loop exit.  The
source's `if game.game_over: break` after an activate/attack is equivalent to
the loop-head re-check and is folded into it. -/
inductive AILoop (policy : GameState → Move) (bot : Side) : Nat → GameState → GameState → Prop
  | exit (count : Nat) (g : GameState)
      (h : ¬(g.current_player = bot ∧ g.game_over = false ∧ count < 10)) :
      AILoop policy bot count g g
  | auto (count : Nat) (g g' r : GameState)
      (hc : g.current_player = bot ∧ g.game_over = false ∧ count < 10)
      (hp : g.current_phase = Phase.ATTAINMENT ∨ g.current_phase = Phase.RESPITE)
      (hnext : NextPhaseRel g g')
      (hrest : AILoop policy bot count g' r) :
      AILoop policy bot count g r
  | advanceMid (count : Nat) (g g' r : GameState)
      (hc : g.current_player = bot ∧ g.game_over = false ∧ count < 10)
      (hp : ¬(g.current_phase = Phase.ATTAINMENT ∨ g.current_phase = Phase.RESPITE))
      (hm : policy g = Move.advance)
      (hnext : NextPhaseRel g g') (hnr : g'.current_phase ≠ Phase.RESPITE)
      (hrest : AILoop policy bot (count + 1) g' r) :
      AILoop policy bot count g r
  | advanceEnd (count : Nat) (g g' g'' : GameState)
      (hc : g.current_player = bot ∧ g.game_over = false ∧ count < 10)
      (hp : ¬(g.current_phase = Phase.ATTAINMENT ∨ g.current_phase = Phase.RESPITE))
      (hm : policy g = Move.advance)
      (hnext : NextPhaseRel g g') (hr : g'.current_phase = Phase.RESPITE)
      (hnext2 : NextPhaseRel g' g'') :
      AILoop policy bot count g g''
  | placeSummon (count : Nat) (g g' r : GameState) (n : String) (sl : Int)
      (hc : g.current_player = bot ∧ g.game_over = false ∧ count < 10)
      (hp : ¬(g.current_phase = Phase.ATTAINMENT ∨ g.current_phase = Phase.RESPITE))
      (hm : policy g = Move.summonM n sl)
      (hnext : NextPhaseRel (actState (Act.summon bot n sl) g) g')
      (hrest : AILoop policy bot count g' r) :
      AILoop policy bot count g r
  | placePrepare (count : Nat) (g g' r : GameState) (n : String) (sl : Int)
      (hc : g.current_player = bot ∧ g.game_over = false ∧ count < 10)
      (hp : ¬(g.current_phase = Phase.ATTAINMENT ∨ g.current_phase = Phase.RESPITE))
      (hm : policy g = Move.prepareM n sl)
      (hnext : NextPhaseRel (actState (Act.prepare bot n sl) g) g')
      (hrest : AILoop policy bot count g' r) :
      AILoop policy bot count g r
  | placeReplace (count : Nat) (g g' r : GameState) (n : String) (sl : Int)
      (hc : g.current_player = bot ∧ g.game_over = false ∧ count < 10)
      (hp : ¬(g.current_phase = Phase.ATTAINMENT ∨ g.current_phase = Phase.RESPITE))
      (hm : policy g = Move.replaceM n sl)
      (hnext : NextPhaseRel (actState (Act.replace bot n sl) g) g')
      (hrest : AILoop policy bot count g' r) :
      AILoop policy bot count g r
  | doActivate (count : Nat) (g r : GameState) (sl cp : Int)
      (hc : g.current_player = bot ∧ g.game_over = false ∧ count < 10)
      (hp : ¬(g.current_phase = Phase.ATTAINMENT ∨ g.current_phase = Phase.RESPITE))
      (hm : policy g = Move.activateM sl cp)
      (hrest : AILoop policy bot (count + 1) (actState (Act.activate bot sl cp) g) r) :
      AILoop policy bot count g r
  | doAttack (count : Nat) (g r : GameState) (sl : Int) (tt : String) (ti : Int)
      (hc : g.current_player = bot ∧ g.game_over = false ∧ count < 10)
      (hp : ¬(g.current_phase = Phase.ATTAINMENT ∨ g.current_phase = Phase.RESPITE))
      (hm : policy g = Move.attackM sl tt ti)
      (hrest : AILoop policy bot (count + 1) (actState (attackActOf bot sl tt ti) g) r) :
      AILoop policy bot count g r

/-- `execute_ai_turn`: run the loop from `action_count = 0`, then the safety
net: if it is still the bot's turn of a live game and the phase is not
Attunement, force the phase to Respite and advance once (handing the turn
over); in Attunement nothing more is done. -/
inductive AIExec (policy : GameState → Move) (bot : Side) : GameState → GameState → Prop
  | finish (g r : GameState) (h : AILoop policy bot 0 g r)
      (hdone : ¬(r.current_player = bot ∧ r.game_over = false)) :
      AIExec policy bot g r
  | netSkip (g r : GameState) (h : AILoop policy bot 0 g r)
      (hb : r.current_player = bot) (hov : r.game_over = false)
      (hph : r.current_phase = Phase.ATTAINMENT) :
      AIExec policy bot g r
  | net (g r r' : GameState) (h : AILoop policy bot 0 g r)
      (hb : r.current_player = bot) (hov : r.game_over = false)
      (hph : r.current_phase ≠ Phase.ATTAINMENT)
      (hnext : NextPhaseRel { r with current_phase := Phase.RESPITE } r') :
      AIExec policy bot g r'

/-- Actions never change whose turn it is or the phase. -/
theorem actState_scalars (a : Act) (g : GameState) :
    (actState a g).current_phase = g.current_phase ∧
      (actState a g).current_player = g.current_player := by
  cases a <;>
    (simp only [actState, applyAct, summon_spirit, prepare_spell, replace_spell,
      use_wizard_ability, activate_spell, attack_with_spirit]
     repeat' split) <;>
    constructor <;>
    simp [GameState.setPlayer_phase, GameState.setPlayer_current]

/-- The three placement actions never end the game. -/
theorem actState_over_placement (a : Act) (g : GameState) (bot : Side)
    (hpl : isPlacementFor bot a) : (actState a g).game_over = g.game_over := by
  cases a with
  | summon p n sl =>
    simp only [actState, applyAct, summon_spirit]
    repeat' split
    all_goals simp [GameState.setPlayer_over]
  | prepare p n sl =>
    simp only [actState, applyAct, prepare_spell]
    repeat' split
    all_goals simp [GameState.setPlayer_over]
  | replace p n sl =>
    simp only [actState, applyAct, replace_spell]
    repeat' split
    all_goals simp [GameState.setPlayer_over]
  | ability p =>
    simp only [actState, applyAct, use_wizard_ability]
    repeat' split
    all_goals simp [GameState.setPlayer_over]
  | activate p sl c => exact absurd hpl not_false
  | attack p sl tt ti => exact absurd hpl not_false

/-- Phase advancement never flips `game_over`. -/
theorem nextPhase_over (g g' : GameState) (h : NextPhaseRel g g') :
    g'.game_over = g.game_over := by
  cases h with
  | over hov => rfl
  | advance hov hp => rfl
  | wrap q hov hp hup => simp [GameState.setPlayer_over]

/-- The non-wrapping phase advance: next phase in the cycle, same side. -/
theorem nextPhase_advance_char (g g' : GameState) (h : NextPhaseRel g g')
    (hov : g.game_over = false) (hp : g.current_phase ≠ Phase.RESPITE) :
    g'.current_phase = g.current_phase.succ ∧ g'.current_player = g.current_player := by
  cases h with
  | over hov2 => rw [hov2] at hov; exact absurd hov (by simp)
  | advance hov2 hp2 => exact ⟨rfl, rfl⟩
  | wrap q hov2 hp2 hup => exact absurd hp2 hp

/-- The wrapping phase advance hands the turn to the opponent. -/
theorem nextPhase_wrap_char (g g' : GameState) (h : NextPhaseRel g g')
    (hov : g.game_over = false) (hp : g.current_phase = Phase.RESPITE) :
    g'.current_player = g.current_player.other ∧
      g'.current_phase = Phase.ATTAINMENT := by
  cases h with
  | over hov2 => rw [hov2] at hov; exact absurd hov (by simp)
  | advance hov2 hp2 => exact absurd hp hp2
  | wrap q hov2 hp2 hup =>
    refine ⟨?_, ?_⟩ <;> simp [GameState.setPlayer_current, GameState.setPlayer_phase]

/-- `next_phase` always relates to some successor state. -/
theorem nextPhase_total (g : GameState) : ∃ g', NextPhaseRel g g' := by
  by_cases hov : g.game_over = true
  · exact ⟨g, NextPhaseRel.over g hov⟩
  have hov' : g.game_over = false := by
    revert hov
    cases g.game_over <;> simp
  by_cases hp : g.current_phase = Phase.RESPITE
  · have hup : ∃ q, UpkeepRel (g.player g.current_player.other) q := by
      rcases List.eq_nil_or_concat (g.player g.current_player.other).deck with hdk | ⟨d, c, hdk⟩
      · rcases List.eq_nil_or_concat (g.player g.current_player.other).discard with
          hdc | ⟨d2, c2, hdc⟩
        · exact ⟨_, _, DrawRel.bothEmpty _ hdk hdc, rfl⟩
        · refine ⟨_, _, DrawRel.reshuffle _ c2 d2 hdk ?_, rfl⟩
          rw [hdc, List.concat_eq_append]
      · refine ⟨_, _, DrawRel.fromDeck _ c d ?_, rfl⟩
        rw [hdk, List.concat_eq_append]
    obtain ⟨q, hq⟩ := hup
    exact ⟨_, NextPhaseRel.wrap g q hov' hp hq⟩
  · exact ⟨_, NextPhaseRel.advance g hov' hp⟩

/-- The cycle successor of a non-Respite phase is never Attunement. -/
theorem phaseSucc_ne_att (p : Phase) (h : p ≠ Phase.RESPITE) :
    p.succ ≠ Phase.ATTAINMENT := by
  cases p <;> simp_all [Phase.succ]

/-- What the loop guarantees at exit: over, off-turn, or at least not sitting
in Attunement (so the safety net can finish the job). -/
def driverExitOk (bot : Side) (r : GameState) : Prop :=
  r.game_over = true ∨ r.current_player ≠ bot ∨ r.current_phase ≠ Phase.ATTAINMENT

/-- Loop soundness: if the loop may only start in Attunement with a count
below the cap, its exit state satisfies `driverExitOk`. -/
theorem aiLoop_sound (policy : GameState → Move) (bot : Side) :
    ∀ (count : Nat) (g r : GameState), AILoop policy bot count g r →
    (g.current_phase = Phase.ATTAINMENT → g.current_player = bot →
      g.game_over = false → count < 10) →
    driverExitOk bot r := by
  intro count g r h
  induction h with
  | exit count g hcond =>
    intro hstart
    by_cases hov : g.game_over = true
    · exact Or.inl hov
    have hov' : g.game_over = false := by revert hov; cases g.game_over <;> simp
    by_cases hb : g.current_player = bot
    · by_cases hph : g.current_phase = Phase.ATTAINMENT
      · exact absurd ⟨hb, hov', hstart hph hb hov'⟩ hcond
      · exact Or.inr (Or.inr hph)
    · exact Or.inr (Or.inl hb)
  | auto count g g' r hc hp hnext hrest ih =>
    intro _
    exact ih fun _ _ _ => hc.2.2
  | advanceMid count g g' r hc hp hm hnext hnr hrest ih =>
    intro _
    apply ih
    intro hph' _ _
    push_neg at hp
    obtain ⟨hph2, _⟩ := nextPhase_advance_char g g' hnext hc.2.1 hp.2
    rw [hph2] at hph'
    exact absurd hph' (phaseSucc_ne_att _ hp.2)
  | advanceEnd count g g' g'' hc hp hm hnext hr hnext2 =>
    intro _
    push_neg at hp
    obtain ⟨_, hcur1⟩ := nextPhase_advance_char g g' hnext hc.2.1 hp.2
    have hov' : g'.game_over = false := by rw [nextPhase_over g g' hnext]; exact hc.2.1
    obtain ⟨hcur2, _⟩ := nextPhase_wrap_char g' g'' hnext2 hov' hr
    refine Or.inr (Or.inl ?_)
    rw [hcur2, hcur1, hc.1]
    exact Side.other_ne bot
  | placeSummon count g g' r n sl hc hp hm hnext hrest ih =>
    intro _
    exact ih fun _ _ _ => hc.2.2
  | placePrepare count g g' r n sl hc hp hm hnext hrest ih =>
    intro _
    exact ih fun _ _ _ => hc.2.2
  | placeReplace count g g' r n sl hc hp hm hnext hrest ih =>
    intro _
    exact ih fun _ _ _ => hc.2.2
  | doActivate count g r sl cp hc hp hm hrest ih =>
    intro _
    apply ih
    intro hph' _ _
    rw [(actState_scalars (Act.activate bot sl cp) g).1] at hph'
    push_neg at hp
    exact absurd hph' hp.1
  | doAttack count g r sl tt ti hc hp hm hrest ih =>
    intro _
    apply ih
    intro hph' _ _
    rw [(actState_scalars (attackActOf bot sl tt ti) g).1] at hph'
    push_neg at hp
    exact absurd hph' hp.1

/-- How far the current phase is from Respite. -/
def phaseRemaining : Phase → Nat
  | .ATTAINMENT => 3
  | .MEMORIZATION => 2
  | .INVOCATION => 1
  | .RESPITE => 0

/-- The loop's termination measure. -/
def driverMeasure (bot : Side) (count : Nat) (g : GameState) : Nat :=
  (10 - count) * 8 + (if g.current_player = bot then 4 else 0) +
    phaseRemaining g.current_phase

theorem phaseRemaining_le (p : Phase) : phaseRemaining p ≤ 3 := by
  cases p <;> simp [phaseRemaining]

theorem phaseRemaining_succ_lt (p : Phase) (h : p ≠ Phase.RESPITE) :
    phaseRemaining p.succ < phaseRemaining p := by
  cases p <;> simp_all [phaseRemaining, Phase.succ]

/-- Loop totality: the bounded loop always exits. -/
theorem aiLoop_total (policy : GameState → Move) (bot : Side) :
    ∀ (n count : Nat) (g : GameState), driverMeasure bot count g ≤ n →
      ∃ r, AILoop policy bot count g r := by
  intro n
  induction n with
  | zero =>
    intro count g hm
    refine ⟨g, AILoop.exit count g ?_⟩
    rintro ⟨hb, hov, hcnt⟩
    have hmeq : driverMeasure bot count g =
        (10 - count) * 8 + 4 + phaseRemaining g.current_phase := by
      rw [driverMeasure, if_pos hb]
    omega
  | succ m ih =>
    intro count g hm
    by_cases hcond : g.current_player = bot ∧ g.game_over = false ∧ count < 10
    case neg => exact ⟨g, AILoop.exit count g hcond⟩
    obtain ⟨hb, hov, hcnt⟩ := hcond
    have hmeq : driverMeasure bot count g =
        (10 - count) * 8 + 4 + phaseRemaining g.current_phase := by
      rw [driverMeasure, if_pos hb]
    by_cases hp : g.current_phase = Phase.ATTAINMENT ∨ g.current_phase = Phase.RESPITE
    · obtain ⟨g', hnext⟩ := nextPhase_total g
      have hdec : driverMeasure bot count g' ≤ m := by
        rcases hp with hp | hp
        · obtain ⟨hph2, hcur2⟩ := nextPhase_advance_char g g' hnext hov (by rw [hp]; simp)
          have heq : driverMeasure bot count g' =
              (10 - count) * 8 + 4 + phaseRemaining g'.current_phase := by
            rw [driverMeasure, if_pos (by rw [hcur2]; exact hb)]
          rw [heq, hph2, hp]
          rw [hmeq, hp] at hm
          simp only [Phase.succ, phaseRemaining] at *
          omega
        · obtain ⟨hcur2, hph2⟩ := nextPhase_wrap_char g g' hnext hov hp
          have hne : ¬(g'.current_player = bot) := by
            rw [hcur2, hb]
            exact Side.other_ne bot
          have heq : driverMeasure bot count g' =
              (10 - count) * 8 + 0 + phaseRemaining g'.current_phase := by
            rw [driverMeasure, if_neg hne]
          rw [heq, hph2]
          rw [hmeq, hp] at hm
          simp only [phaseRemaining] at *
          omega
      obtain ⟨r, hr⟩ := ih count g' hdec
      exact ⟨r, AILoop.auto count g g' r ⟨hb, hov, hcnt⟩ hp hnext hr⟩
    · have hp' := hp
      push_neg at hp'
      obtain ⟨hpa, hpr⟩ := hp'
      rcases hmv : policy g with _ | ⟨n0, sl⟩ | ⟨n0, sl⟩ | ⟨n0, sl⟩ | ⟨sl, cp⟩ | ⟨sl, tt, ti⟩
      · obtain ⟨g', hnext⟩ := nextPhase_total g
        by_cases hr : g'.current_phase = Phase.RESPITE
        · obtain ⟨g'', hnext2⟩ := nextPhase_total g'
          exact ⟨g'', AILoop.advanceEnd count g g' g'' ⟨hb, hov, hcnt⟩ hp hmv hnext hr hnext2⟩
        · have hdec : driverMeasure bot (count + 1) g' ≤ m := by
            have hub : driverMeasure bot (count + 1) g' ≤ (10 - (count + 1)) * 8 + 4 + 3 := by
              rw [driverMeasure]
              have := phaseRemaining_le g'.current_phase
              split <;> omega
            have hrem0 : 0 ≤ phaseRemaining g.current_phase := Nat.zero_le _
            rw [hmeq] at hm
            omega
          obtain ⟨r, hrr⟩ := ih (count + 1) g' hdec
          exact ⟨r, AILoop.advanceMid count g g' r ⟨hb, hov, hcnt⟩ hp hmv hnext hr hrr⟩
      · obtain ⟨g', hnext⟩ := nextPhase_total (actState (Act.summon bot n0 sl) g)
        have hu := actState_scalars (Act.summon bot n0 sl) g
        have hu3 := actState_over_placement (Act.summon bot n0 sl) g bot rfl
        have hadv := nextPhase_advance_char _ g' hnext (by rw [hu3]; exact hov)
          (by rw [hu.1]; exact hpr)
        have hdec : driverMeasure bot count g' ≤ m := by
          have hcur' : g'.current_player = bot := by rw [hadv.2, hu.2]; exact hb
          have hrem' : phaseRemaining g'.current_phase < phaseRemaining g.current_phase := by
            rw [hadv.1, hu.1]
            exact phaseRemaining_succ_lt _ hpr
          have heq : driverMeasure bot count g' =
              (10 - count) * 8 + 4 + phaseRemaining g'.current_phase := by
            rw [driverMeasure, if_pos hcur']
          rw [hmeq] at hm
          omega
        obtain ⟨r, hrr⟩ := ih count g' hdec
        exact ⟨r, AILoop.placeSummon count g g' r n0 sl ⟨hb, hov, hcnt⟩ hp hmv hnext hrr⟩
      · obtain ⟨g', hnext⟩ := nextPhase_total (actState (Act.prepare bot n0 sl) g)
        have hu := actState_scalars (Act.prepare bot n0 sl) g
        have hu3 := actState_over_placement (Act.prepare bot n0 sl) g bot rfl
        have hadv := nextPhase_advance_char _ g' hnext (by rw [hu3]; exact hov)
          (by rw [hu.1]; exact hpr)
        have hdec : driverMeasure bot count g' ≤ m := by
          have hcur' : g'.current_player = bot := by rw [hadv.2, hu.2]; exact hb
          have hrem' : phaseRemaining g'.current_phase < phaseRemaining g.current_phase := by
            rw [hadv.1, hu.1]
            exact phaseRemaining_succ_lt _ hpr
          have heq : driverMeasure bot count g' =
              (10 - count) * 8 + 4 + phaseRemaining g'.current_phase := by
            rw [driverMeasure, if_pos hcur']
          rw [hmeq] at hm
          omega
        obtain ⟨r, hrr⟩ := ih count g' hdec
        exact ⟨r, AILoop.placePrepare count g g' r n0 sl ⟨hb, hov, hcnt⟩ hp hmv hnext hrr⟩
      · obtain ⟨g', hnext⟩ := nextPhase_total (actState (Act.replace bot n0 sl) g)
        have hu := actState_scalars (Act.replace bot n0 sl) g
        have hu3 := actState_over_placement (Act.replace bot n0 sl) g bot rfl
        have hadv := nextPhase_advance_char _ g' hnext (by rw [hu3]; exact hov)
          (by rw [hu.1]; exact hpr)
        have hdec : driverMeasure bot count g' ≤ m := by
          have hcur' : g'.current_player = bot := by rw [hadv.2, hu.2]; exact hb
          have hrem' : phaseRemaining g'.current_phase < phaseRemaining g.current_phase := by
            rw [hadv.1, hu.1]
            exact phaseRemaining_succ_lt _ hpr
          have heq : driverMeasure bot count g' =
              (10 - count) * 8 + 4 + phaseRemaining g'.current_phase := by
            rw [driverMeasure, if_pos hcur']
          rw [hmeq] at hm
          omega
        obtain ⟨r, hrr⟩ := ih count g' hdec
        exact ⟨r, AILoop.placeReplace count g g' r n0 sl ⟨hb, hov, hcnt⟩ hp hmv hnext hrr⟩
      · have hu := actState_scalars (Act.activate bot sl cp) g
        have hdec : driverMeasure bot (count + 1) (actState (Act.activate bot sl cp) g) ≤ m := by
          have heq : driverMeasure bot (count + 1) (actState (Act.activate bot sl cp) g) =
              (10 - (count + 1)) * 8 + 4 + phaseRemaining g.current_phase := by
            rw [driverMeasure, hu.1, if_pos (by rw [hu.2]; exact hb)]
          rw [hmeq] at hm
          omega
        obtain ⟨r, hrr⟩ := ih _ _ hdec
        exact ⟨r, AILoop.doActivate count g r sl cp ⟨hb, hov, hcnt⟩ hp hmv hrr⟩
      · have hu := actState_scalars (attackActOf bot sl tt ti) g
        have hdec : driverMeasure bot (count + 1)
            (actState (attackActOf bot sl tt ti) g) ≤ m := by
          have heq : driverMeasure bot (count + 1) (actState (attackActOf bot sl tt ti) g) =
              (10 - (count + 1)) * 8 + 4 + phaseRemaining g.current_phase := by
            rw [driverMeasure, hu.1, if_pos (by rw [hu.2]; exact hb)]
          rw [hmeq] at hm
          omega
        obtain ⟨r, hrr⟩ := ih _ _ hdec
        exact ⟨r, AILoop.doAttack count g r sl tt ti ⟨hb, hov, hcnt⟩ hp hmv hrr⟩

/-- C9: for every starting state, every policy and every bot side, the AI turn
driver terminates (some execution exists), and every execution ends with the
match over or with the turn handed away from the bot — force-advancing through
Respite when the bounded loop exits with the bot still to move. -/
theorem c9_ai_turn_driver (policy : GameState → Move) (bot : Side) (g : GameState) :
    (∃ r, AIExec policy bot g r) ∧
    ∀ r, AIExec policy bot g r → r.game_over = true ∨ r.current_player ≠ bot := by
  constructor
  · obtain ⟨r0, hr0⟩ := aiLoop_total policy bot (driverMeasure bot 0 g) 0 g (le_refl _)
    by_cases hdone : r0.current_player = bot ∧ r0.game_over = false
    · by_cases hph : r0.current_phase = Phase.ATTAINMENT
      · exact ⟨r0, AIExec.netSkip g r0 hr0 hdone.1 hdone.2 hph⟩
      · obtain ⟨r', hnext⟩ := nextPhase_total { r0 with current_phase := Phase.RESPITE }
        exact ⟨r', AIExec.net g r0 r' hr0 hdone.1 hdone.2 hph hnext⟩
    · exact ⟨r0, AIExec.finish g r0 hr0 hdone⟩
  · intro r h
    cases h
    case finish hl hdone =>
      by_cases hov : r.game_over = true
      · exact Or.inl hov
      have hov' : r.game_over = false := by revert hov; cases r.game_over <;> simp
      by_cases hb : r.current_player = bot
      · exact absurd ⟨hb, hov'⟩ hdone
      · exact Or.inr hb
    case netSkip hl hb hov hph =>
      have hE := aiLoop_sound policy bot 0 g r hl (fun _ _ _ => by omega)
      rcases hE with hE | hE | hE
      · exact Or.inl hE
      · exact absurd hb hE
      · exact absurd hph hE
    case net r0 hl hb hov hph hnext =>
      have hov2 : ({ r0 with current_phase := Phase.RESPITE } : GameState).game_over = false :=
        hov
      obtain ⟨hcur, _⟩ := nextPhase_wrap_char _ r hnext hov2 rfl
      refine Or.inr ?_
      rw [hcur]
      have hcur0 : ({ r0 with current_phase := Phase.RESPITE } : GameState).current_player =
          r0.current_player := rfl
      rw [hcur0, hb]
      exact Side.other_ne bot

end Arcana
